import Mathlib

/-!
Verification development for the simplelang PL/0 compiler.

The Go sources are embedded shallowly: pure functions become Lean functions,
stateful code is threaded explicitly, machine integers are modelled as Int/Nat,
and fallible code (Go runtime panics such as nil dereferences and index errors)
returns Option.  Loops that are not structurally recursive take a gas parameter
(first argument, called fuel); a result of Option.none at the outer level means
the gas ran out, which never happens for sufficiently large gas.
-/

namespace token

/-- Token error marker.  The Go Token has an Err field of type error; only two
distinct error values occur process-wide (io.EOF for the EOF sentinel and the
unexpected-character error), so the field is modelled as a three-valued tag. -/
inductive TokErr where
  | none
  | eofErr
  | unexpected
deriving DecidableEq, Repr

/-- Token record, mirroring the Go token.Token struct: a tag, an integer value
for integer literals, a line number, a lexeme for identifiers, and the error
marker. -/
structure Token where
  Tag : Nat
  Val : Int
  Ln : Nat
  Lex : String
  Err : TokErr
deriving DecidableEq, Repr

/-- Modelled from the spec: the token tag constants.  The revision of the token
package imported by the current lexer and parser is not among the source files;
the spec (sections 3 and 6) lists the token kinds.  Distinct nonzero codes are
chosen; the two shared sentinel tokens keep the Go zero-value tag. -/
def Period : Nat := 1

def Comma : Nat := 2

def Semicolon : Nat := 3

def Equals : Nat := 4

def NotEquals : Nat := 5

def LessThan : Nat := 6

def GreaterThan : Nat := 7

def LessThanEqualTo : Nat := 8

def GreaterThanEqualTo : Nat := 9

def Times : Nat := 10

def Divide : Nat := 11

def Plus : Nat := 12

def Minus : Nat := 13

def LeftCurlyBrace : Nat := 14

def RightCurlyBrace : Nat := 15

def LeftParen : Nat := 16

def RightParen : Nat := 17

def Exclamation : Nat := 18

def Assignment : Nat := 19

def Identifier : Nat := 20

def Integer : Nat := 21

def Const : Nat := 22

def Var : Nat := 23

def Procedure : Nat := 24

def Call : Nat := 25

def Begin : Nat := 26

def End : Nat := 27

def If : Nat := 28

def Then : Nat := 29

def While : Nat := 30

def Do : Nat := 31

def Odd : Nat := 32

/-- Go token.New: a fresh token carrying the current line number. -/
def New (ln : Nat) : Token :=
  { Tag := 0, Val := 0, Ln := ln, Lex := "", Err := .none }

/-- The shared end-of-stream sentinel token (Go: var EOF = Token with Err io.EOF). -/
def EOF : Token :=
  { Tag := 0, Val := 0, Ln := 0, Lex := "", Err := .eofErr }

/-- The shared unexpected-character sentinel token. -/
def UnexpectedChar : Token :=
  { Tag := 0, Val := 0, Ln := 0, Lex := "", Err := .unexpected }

end token

namespace lexer

/-- Lexer state.  The bufio.Reader is modelled as the byte sequence of the whole
input plus a read position; ReadByte yields the byte at pos and advances,
UnreadByte moves the position back one byte (the byte written back by bufio is
the byte that was read from that position, so the input list is unchanged).
The peek byte and line counter mirror the fields of the Go Lexer struct. -/
structure Lexer where
  input : List Nat
  pos : Nat
  peek : Nat
  ln : Nat
deriving DecidableEq, Repr

/-- Byte values of a string, for building concrete lexer inputs. -/
def strBytes (s : String) : List Nat :=
  s.data.map Char.toNat

/-- Go lexer.NewFromString: a fresh lexer over the given input. -/
def NewFromString (s : String) : Lexer :=
  { input := strBytes s, pos := 0, peek := 0, ln := 0 }

/-- The reserved keyword table loaded by loadKeywords. -/
def res : List (String × Nat) :=
  [("CONST", token.Const), ("VAR", token.Var), ("PROCEDURE", token.Procedure),
   ("CALL", token.Call), ("BEGIN", token.Begin), ("END", token.End),
   ("IF", token.If), ("THEN", token.Then), ("WHILE", token.While),
   ("DO", token.Do), ("ODD", token.Odd)]

/-- Result of a reader operation that can hit the end of the input: either an
io.EOF error or a successfully updated lexer.  Both carry the lexer state as
mutated so far, since the Go methods mutate the receiver in place. -/
inductive RdRes where
  | eofAt (l : Lexer)
  | ok (l : Lexer)
deriving DecidableEq, Repr

/-- Go readChar: read a single byte, set peek.  Option.none is the io.EOF error
(the Go method leaves the lexer unchanged in that case). -/
def readChar (l : Lexer) : Option Lexer :=
  match l.input.get? l.pos with
  | some c => some { l with pos := l.pos + 1, peek := c }
  | none => none

/-- Go unreadChar: bufio UnreadByte, position moves back one byte; peek is not
modified; the returned error is ignored by all callers. -/
def unreadChar (l : Lexer) : Lexer :=
  { l with pos := l.pos - 1 }

/-- Go readCharAndWhitespace: skip blanks and tabs, count newlines, stop at the
first other byte and set peek to it. -/
def readCharAndWhitespace : Nat → Lexer → Option RdRes
  | 0, _ => none
  | fuel + 1, l =>
    match l.input.get? l.pos with
    | none => some (.eofAt l)
    | some c =>
      let l1 : Lexer := { l with pos := l.pos + 1 }
      if c = 10 then readCharAndWhitespace fuel { l1 with ln := l1.ln + 1 }
      else if c = 32 ∨ c = 9 then readCharAndWhitespace fuel l1
      else some (.ok { l1 with peek := c })

/-- Go readCharAndMatch: read one byte and compare it with c.  On a match the
peek byte is overwritten with a blank.  Option.none is the io.EOF error, in
which case the Go method returns (false, err) with the lexer unchanged. -/
def readCharAndMatch (c : Nat) (l : Lexer) : Option (Bool × Lexer) :=
  match readChar l with
  | none => none
  | some l1 =>
    if l1.peek ≠ c then some (false, l1)
    else some (true, { l1 with peek := 32 })

/-- The unbounded for-loop inside the block-comment branch of scanComments. -/
def scanBlockLoop : Nat → Lexer → Option RdRes
  | 0, _ => none
  | fuel + 1, l =>
    match readCharAndMatch 42 l with
    | none => some (.eofAt l)
    | some (false, l1) => scanBlockLoop fuel l1
    | some (true, l1) =>
      match readCharAndMatch 47 l1 with
      | none => some (.eofAt l1)
      | some (false, l2) => scanBlockLoop fuel (unreadChar l2)
      | some (true, l2) =>
        match readCharAndWhitespace fuel l2 with
        | none => none
        | some (.eofAt l3) => some (.eofAt l3)
        | some (.ok l3) => some (.ok l3)

/-- The unbounded for-loop inside the line-comment branch of scanComments. -/
def scanLineLoop : Nat → Lexer → Option RdRes
  | 0, _ => none
  | fuel + 1, l =>
    match readChar l with
    | none => some (.eofAt l)
    | some l1 =>
      if l1.peek = 10 then
        match readCharAndWhitespace fuel l1 with
        | none => none
        | some (.eofAt l2) => some (.eofAt l2)
        | some (.ok l2) => some (.ok l2)
      else scanLineLoop fuel l1

/-- Go scanComments: eat a block or line comment if the peek byte starts one;
restore the state so that a lone slash is still lexed as the divide token. -/
def scanComments (fuel : Nat) (l : Lexer) : Option RdRes :=
  if l.peek = 47 then
    match readCharAndMatch 42 l with
    | none => some (.ok l)
    | some (true, l1) => scanBlockLoop fuel l1
    | some (false, l1) =>
      let l2 := unreadChar l1
      match readCharAndMatch 47 l2 with
      | none => some (.eofAt l2)
      | some (true, l3) => scanLineLoop fuel l3
      | some (false, l3) => some (.ok { unreadChar l3 with peek := 47 })
  else some (.ok l)

/-- Byte classifier isAlpha from the Go lexer. -/
def isAlpha (c : Nat) : Bool :=
  decide (97 ≤ c ∧ c ≤ 122) || decide (65 ≤ c ∧ c ≤ 90)

/-- Byte classifier isDigit from the Go lexer. -/
def isDigit (c : Nat) : Bool :=
  decide (48 ≤ c ∧ c ≤ 57)

/-- Go convertCharDigitToInt. -/
def convertCharDigitToInt (c : Nat) : Int :=
  if isDigit c then (c : Int) - 48 else -1

/-- The identifier-accumulation for-loop of Scan: write the peek byte, read the
next byte, stop (unreading the byte) at the first non-alphanumeric byte or at
the end of the input. -/
def identLoop : Nat → Lexer → String → Option (String × Lexer)
  | 0, _, _ => none
  | fuel + 1, l, acc =>
    let acc1 := acc.push (Char.ofNat l.peek)
    match readChar l with
    | none => some (acc1, l)
    | some l1 =>
      if isAlpha l1.peek || isDigit l1.peek then identLoop fuel l1 acc1
      else some (acc1, unreadChar l1)

/-- The integer-accumulation for-loop of Scan. -/
def digitLoop : Nat → Lexer → Int → Option (Int × Lexer)
  | 0, _, _ => none
  | fuel + 1, l, v =>
    let v1 := 10 * v + convertCharDigitToInt l.peek
    match readChar l with
    | none => some (v1, l)
    | some l1 =>
      if isDigit l1.peek then digitLoop fuel l1 v1
      else some (v1, unreadChar l1)

/-- Helper for building the returned token: token.New at the given line with the
tag set, mirroring tok.Tag assignment in Scan. -/
def mkTok (tag ln : Nat) : token.Token :=
  { token.New ln with Tag := tag }

/-- The tail of Scan after the single-character and compound-operator cases:
identifier/keyword scanning, integer scanning, and the UnexpectedChar fall
through, operating on the current peek byte. -/
def scanTail (fuel : Nat) (l : Lexer) : Option (token.Token × Lexer) :=
  if isAlpha l.peek then
    match identLoop fuel l "" with
    | none => none
    | some (lexeme, l1) =>
      let resTag := ((res.lookup lexeme).getD 0)
      let tag := if resTag ≠ 0 then resTag else token.Identifier
      if tag = token.Identifier then
        some ({ mkTok tag l.ln with Lex := lexeme }, l1)
      else
        some (mkTok tag l.ln, l1)
  else if isDigit l.peek then
    match digitLoop fuel l 0 with
    | none => none
    | some (v, l1) => some ({ mkTok token.Integer l.ln with Val := v }, l1)
  else
    some (token.UnexpectedChar, l)

/-- Go Scan: produce the next token.  The structure mirrors the if-chain of the
source; the compound-operator cases call readCharAndMatch and unreadChar exactly
as the source does, including when readCharAndMatch fails with io.EOF (the error
is ignored, the match flag is false, and unreadChar is still executed). -/
def Scan (fuel : Nat) (l0 : Lexer) : Option (token.Token × Lexer) :=
  match readCharAndWhitespace fuel l0 with
  | none => none
  | some (.eofAt l) => some (token.EOF, l)
  | some (.ok lw) =>
    match scanComments fuel lw with
    | none => none
    | some (.eofAt l) => some (token.EOF, l)
    | some (.ok l) =>
      if l.peek = 46 then some (mkTok token.Period l.ln, l)
      else if l.peek = 44 then some (mkTok token.Comma l.ln, l)
      else if l.peek = 59 then some (mkTok token.Semicolon l.ln, l)
      else if l.peek = 61 then some (mkTok token.Equals l.ln, l)
      else if l.peek = 35 then some (mkTok token.NotEquals l.ln, l)
      else if l.peek = 60 then
        match readCharAndMatch 61 l with
        | none => some (mkTok token.LessThan l.ln, unreadChar l)
        | some (true, l1) => some (mkTok token.LessThanEqualTo l.ln, l1)
        | some (false, l1) => some (mkTok token.LessThan l.ln, unreadChar l1)
      else if l.peek = 62 then
        match readCharAndMatch 61 l with
        | none => some (mkTok token.GreaterThan l.ln, unreadChar l)
        | some (true, l1) => some (mkTok token.GreaterThanEqualTo l.ln, l1)
        | some (false, l1) => some (mkTok token.GreaterThan l.ln, unreadChar l1)
      else if l.peek = 42 then some (mkTok token.Times l.ln, l)
      else if l.peek = 47 then some (mkTok token.Divide l.ln, l)
      else if l.peek = 43 then some (mkTok token.Plus l.ln, l)
      else if l.peek = 45 then some (mkTok token.Minus l.ln, l)
      else if l.peek = 123 then some (mkTok token.LeftCurlyBrace l.ln, l)
      else if l.peek = 125 then some (mkTok token.RightCurlyBrace l.ln, l)
      else if l.peek = 40 then some (mkTok token.LeftParen l.ln, l)
      else if l.peek = 41 then some (mkTok token.RightParen l.ln, l)
      else if l.peek = 33 then some (mkTok token.Exclamation l.ln, l)
      else if l.peek = 58 then
        match readCharAndMatch 61 l with
        | none => scanTail fuel (unreadChar l)
        | some (true, l1) => some (mkTok token.Assignment l.ln, l1)
        | some (false, l1) => scanTail fuel (unreadChar l1)
      else scanTail fuel l

/-- One Scan call viewed as a state transformer (result token discarded); used
to express properties of repeated calls. -/
def scanStep (fuel : Nat) (l : Lexer) : Lexer :=
  match Scan fuel l with
  | none => l
  | some (_, l1) => l1

/-- The lexer state after n further Scan calls. -/
def afterScans (fuel : Nat) : Nat → Lexer → Lexer
  | 0, l => l
  | n + 1, l => afterScans fuel n (scanStep fuel l)

end lexer

namespace lexer

/-- The lexer state reached after the first Scan call on the input consisting of
a single colon: the colon has been pushed back by unreadChar, so the reader is
again at position 0. -/
def colonFixpoint : Lexer :=
  { input := [58], pos := 0, peek := 58, ln := 0 }

theorem scanStep_fixpoint (fuel : Nat) (st : Lexer) (h : scanStep fuel st = st) :
    ∀ n, afterScans fuel n st = st := by
  intro n
  induction n with
  | zero => rfl
  | succ n ih => rw [afterScans, h, ih]

end lexer

namespace lexer

/-- C7: the claim states that for every finite input repeated Scan calls
eventually return the shared EOF sentinel.  On the one-byte input consisting of
a colon this fails: the colon branch of Scan calls readCharAndMatch, which hits
io.EOF, and then unreadChar pushes the colon itself back, so every Scan call
re-reads the colon and returns the UnexpectedChar sentinel; the EOF sentinel is
never returned. -/
theorem C7_lexer_totality_fails_on_colon :
    ∀ n : Nat,
      Scan 8 (afterScans 8 n (NewFromString ":")) = some (token.UnexpectedChar, colonFixpoint) ∧
      token.UnexpectedChar ≠ token.EOF := by
  intro n
  have hfixstep : scanStep 8 colonFixpoint = colonFixpoint := by decide
  refine ⟨?_, by decide⟩
  cases n with
  | zero => decide
  | succ n =>
    have h0 : afterScans 8 (n + 1) (NewFromString ":") = colonFixpoint := by
      rw [afterScans]
      have : scanStep 8 (NewFromString ":") = colonFixpoint := by decide
      rw [this, scanStep_fixpoint 8 colonFixpoint hfixstep]
    rw [h0]
    decide

/-- C8: on the input ":a" the Scan call sees a colon that is not followed by an
equals sign; the claim states that the shared UnexpectedChar sentinel is
returned, but the code falls through into the identifier scanner with the
lookahead byte both left in peek and pushed back onto the reader, producing an
Identifier token with the fabricated lexeme "aa" instead of the sentinel. -/
theorem C8_lone_colon_not_unexpected_char :
    Scan 8 (NewFromString ":a") =
      some ({ Tag := token.Identifier, Val := 0, Ln := 0, Lex := "aa", Err := .none },
            { input := [58, 97], pos := 2, peek := 97, ln := 0 }) ∧
    ({ Tag := token.Identifier, Val := 0, Ln := 0, Lex := "aa", Err := .none } : token.Token)
      ≠ token.UnexpectedChar := by
  decide

end lexer

namespace ast

/-- AST node kind tags, in Go iota order. -/
def Program : Nat := 0

def Block : Nat := 1

def Const : Nat := 2

def Var : Nat := 3

def ProcedureParent : Nat := 4

def Procedure : Nat := 5

def Call : Nat := 6

def Begin : Nat := 7

def IfThen : Nat := 8

def WhileDo : Nat := 9

def Odd : Nat := 10

def Cond : Nat := 11

def Math : Nat := 12

def Assignment : Nat := 13

def Terminal : Nat := 14

def Print : Nat := 15

/-- AST node, mirroring the Go ast.Node struct: a kind tag, an operator, an
optional token (Go *token.Token, nil for non-terminal nodes), an optional
attached symbol table (Go *symtable.SymbolTable, nil until the analyser sets
it), and the ordered children (Go []*ast.Node; each entry is a pointer and can
be nil, hence the Option).  The symbol-table type is a parameter because two
revisions of the symtable package occur in the sources. -/
inductive Node (σ : Type) where
  | mk (tag : Nat) (op : Nat) (tok : Option token.Token) (sym : Option σ)
      (children : List (Option (Node σ)))

/-- Node field accessor for the kind tag. -/
def Node.tag {σ : Type} : Node σ → Nat
  | .mk t _ _ _ _ => t

/-- Node field accessor for the operator. -/
def Node.op {σ : Type} : Node σ → Nat
  | .mk _ o _ _ _ => o

/-- Node field accessor for the token payload. -/
def Node.tok {σ : Type} : Node σ → Option token.Token
  | .mk _ _ tk _ _ => tk

/-- Node field accessor for the attached symbol table. -/
def Node.sym {σ : Type} : Node σ → Option σ
  | .mk _ _ _ s _ => s

/-- Node field accessor for the children. -/
def Node.children {σ : Type} : Node σ → List (Option (Node σ))
  | .mk _ _ _ _ cs => cs

/-- Go ast.NewNode: a fresh node with the given tag and no children. -/
def NewNode {σ : Type} (t : Nat) : Node σ :=
  .mk t 0 none none []

/-- Go Node.AppendNode: append children to a node. -/
def Node.appendNode {σ : Type} : Node σ → List (Option (Node σ)) → Node σ
  | .mk t o tk s cs, more => .mk t o tk s (cs ++ more)

/-- Go ast.NewProgramNode. -/
def NewProgramNode {σ : Type} (block : Option (Node σ)) : Node σ :=
  (NewNode Program).appendNode [block]

/-- Go ast.NewBlockNode. -/
def NewBlockNode {σ : Type} (cons vars proc stmt : Option (Node σ)) : Node σ :=
  (NewNode Block).appendNode [cons, vars, proc, stmt]

/-- Go ast.NewConstNode. -/
def NewConstNode {σ : Type} : Node σ :=
  NewNode Const

/-- Go ast.NewVarNode. -/
def NewVarNode {σ : Type} : Node σ :=
  NewNode Var

/-- Go ast.NewProcedureParentNode. -/
def NewProcedureParentNode {σ : Type} : Node σ :=
  NewNode ProcedureParent

/-- Go ast.NewProcedureNode. -/
def NewProcedureNode {σ : Type} (iden bloc : Option (Node σ)) : Node σ :=
  (NewNode Procedure).appendNode [iden, bloc]

/-- Go ast.NewCallNode. -/
def NewCallNode {σ : Type} (iden : Option (Node σ)) : Node σ :=
  (NewNode Call).appendNode [iden]

/-- Go ast.NewBeginNode. -/
def NewBeginNode {σ : Type} : Node σ :=
  NewNode Begin

/-- Go ast.NewIfThenNode. -/
def NewIfThenNode {σ : Type} (cond stmt : Option (Node σ)) : Node σ :=
  (NewNode IfThen).appendNode [cond, stmt]

/-- Go ast.NewWhileDoNode. -/
def NewWhileDoNode {σ : Type} (cond stmt : Option (Node σ)) : Node σ :=
  (NewNode WhileDo).appendNode [cond, stmt]

/-- Go ast.NewOddNode. -/
def NewOddNode {σ : Type} (expr : Option (Node σ)) : Node σ :=
  (NewNode Odd).appendNode [expr]

/-- Go ast.NewMathNode. -/
def NewMathNode {σ : Type} (op : Nat) (left right : Option (Node σ)) : Node σ :=
  match (NewNode Math : Node σ) with
  | .mk t _ tk s cs => (Node.mk t op tk s cs).appendNode [left, right]

/-- Go ast.NewCondNode. -/
def NewCondNode {σ : Type} (op : Nat) (left right : Option (Node σ)) : Node σ :=
  match (NewNode Cond : Node σ) with
  | .mk t _ tk s cs => (Node.mk t op tk s cs).appendNode [left, right]

/-- Go ast.NewAssignmentNode. -/
def NewAssignmentNode {σ : Type} (left right : Option (Node σ)) : Node σ :=
  (NewNode Assignment).appendNode [left, right]

/-- Go ast.NewPrintNode. -/
def NewPrintNode {σ : Type} (expr : Option (Node σ)) : Node σ :=
  (NewNode Print).appendNode [expr]

/-- Go ast.NewTerminalNode. -/
def NewTerminalNode {σ : Type} (tok : token.Token) : Node σ :=
  match (NewNode Terminal : Node σ) with
  | .mk t o _ s cs => .mk t o (some tok) s cs

end ast

namespace symtable

/-- Symbol kind constants of the symtable package (Go iota order). -/
def Constant : Nat := 0

def Integer : Nat := 1

def Procedure : Nat := 2

/-- Key of the code-generation symbol table: a kind tag and a lexeme. -/
structure Key where
  Tag : Nat
  Lex : String
deriving DecidableEq, Repr

/-- Value of the code-generation symbol table.  Label, Order and Val mirror the
symtable revision in the sources; the NumVars field is written by codegen.go as
the fourth field of the Value literal and is modelled from the spec (section 3:
procedures carry the variable count of their block), since the symtable revision
declaring it is not among the source files. -/
structure Value where
  Label : String
  Order : Nat
  Val : Int
  NumVars : Nat
deriving DecidableEq, Repr

/-- The code-generation symbol table: a Go map from Key to *Value, modelled as
an association list where Put prepends and Get takes the first match (the
observable map behaviour: Put overwrites, Get of an absent key is nil). -/
structure SymbolTable where
  table : List (Key × Value)
deriving DecidableEq, Repr

/-- Go symtable.New. -/
def New : SymbolTable :=
  { table := [] }

/-- Go SymbolTable.Put. -/
def SymbolTable.Put (s : SymbolTable) (k : Key) (v : Value) : SymbolTable :=
  { table := (k, v) :: s.table }

/-- Go SymbolTable.Get: the Value for the key, or none (Go nil). -/
def SymbolTable.Get (s : SymbolTable) (k : Key) : Option Value :=
  (s.table.find? (fun kv => decide (kv.1 = k))).map Prod.snd

end symtable

namespace codegen

/-- One emitted assembly instruction.  Each emit helper of codegen.go writes one
line into the output buffer; the buffer is modelled as a list of these
structured instructions (register names and labels stay strings, immediates are
integers). -/
inductive Instr where
  | andi (t s : String) (imm : Int)
  | bgtz (s l : String)
  | bgez (s l : String)
  | beq (s t l : String)
  | bne (s t l : String)
  | j (l : String)
  | jal (l : String)
  | jr
  | lw (t s : String) (offset : Int)
  | li (t : String) (imm : Int)
  | sw (t s : String) (offset : Int)
  | addu (d s : String) (imm : Int)
  | subu (d s : String) (imm : Int)
  | add (d s t : String)
  | sub (d s t : String)
  | mult (s t : String)
  | div (s t : String)
  | mflo (d : String)
  | move (t s : String)
  | label (l : String)
  | syscall
deriving DecidableEq, Repr

/-- CodeGenerator state: the output buffer and the global label counter. -/
structure GenState where
  buf : List Instr
  count : Nat
deriving DecidableEq, Repr

/-- Go writeOut: append to the buffer. -/
def writeOut (c : GenState) (s : Instr) : GenState :=
  { c with buf := c.buf ++ [s] }

/-- Go emitAndImmediate. -/
def emitAndImmediate (c : GenState) (t s : String) (imm : Int) : GenState :=
  writeOut c (.andi t s imm)

/-- Go emitBranchOnGreaterThanZero. -/
def emitBranchOnGreaterThanZero (c : GenState) (s l : String) : GenState :=
  writeOut c (.bgtz s l)

/-- Go emitBranchOnGreaterThanOrEqualZero. -/
def emitBranchOnGreaterThanOrEqualZero (c : GenState) (s l : String) : GenState :=
  writeOut c (.bgez s l)

/-- Go emitBranchOnEqual. -/
def emitBranchOnEqual (c : GenState) (s t l : String) : GenState :=
  writeOut c (.beq s t l)

/-- Go emitBranchNotEqual. -/
def emitBranchNotEqual (c : GenState) (s t l : String) : GenState :=
  writeOut c (.bne s t l)

/-- Go emitJump. -/
def emitJump (c : GenState) (l : String) : GenState :=
  writeOut c (.j l)

/-- Go emitJumpAndLink. -/
def emitJumpAndLink (c : GenState) (l : String) : GenState :=
  writeOut c (.jal l)

/-- Go emitJumpReturn. -/
def emitJumpReturn (c : GenState) : GenState :=
  writeOut c .jr

/-- Go emitLoadWord. -/
def emitLoadWord (c : GenState) (t s : String) (offset : Int) : GenState :=
  writeOut c (.lw t s offset)

/-- Go emitLoadInt. -/
def emitLoadInt (c : GenState) (t : String) (imm : Int) : GenState :=
  writeOut c (.li t imm)

/-- Go emitStoreWord. -/
def emitStoreWord (c : GenState) (t s : String) (offset : Int) : GenState :=
  writeOut c (.sw t s offset)

/-- Go emitAddUnsigned. -/
def emitAddUnsigned (c : GenState) (d s : String) (imm : Int) : GenState :=
  writeOut c (.addu d s imm)

/-- Go emitSubUnsigned. -/
def emitSubUnsigned (c : GenState) (d s : String) (imm : Int) : GenState :=
  writeOut c (.subu d s imm)

/-- Go emitAdd. -/
def emitAdd (c : GenState) (d s t : String) : GenState :=
  writeOut c (.add d s t)

/-- Go emitSub. -/
def emitSub (c : GenState) (d s t : String) : GenState :=
  writeOut c (.sub d s t)

/-- Go emitMul. -/
def emitMul (c : GenState) (s t : String) : GenState :=
  writeOut c (.mult s t)

/-- Go emitDiv. -/
def emitDiv (c : GenState) (s t : String) : GenState :=
  writeOut c (.div s t)

/-- Go emitMoveFromLo. -/
def emitMoveFromLo (c : GenState) (d : String) : GenState :=
  writeOut c (.mflo d)

/-- Go emitMove. -/
def emitMove (c : GenState) (t s : String) : GenState :=
  writeOut c (.move t s)

/-- Go getNewLabel: the base with the current counter appended; bumps the
counter. -/
def getNewLabel (c : GenState) (base : String) : String × GenState :=
  (base ++ toString c.count, { c with count := c.count + 1 })

/-- Go emitLabel. -/
def emitLabel (c : GenState) (l : String) : GenState :=
  writeOut c (.label l)

/-- Go emitSyscall. -/
def emitSyscall (c : GenState) : GenState :=
  writeOut c .syscall

/-- The descending for-loop of getValueFromClosestSymbolTable, expressed over
the reversed table stack; d counts the distance from the innermost table. -/
def getValueAux (key : symtable.Key) :
    Nat → List symtable.SymbolTable → Nat × Option symtable.Value
  | _, [] => (0, none)
  | d, t :: rest =>
    match t.Get key with
    | some v => (d, some v)
    | none => getValueAux key (d + 1) rest

/-- Go getValueFromClosestSymbolTable: search the stack from the innermost
(last) table outward; return the distance from the top and the value, or
(0, none) when no table contains the key. -/
def getValueFromClosestSymbolTable (key : symtable.Key)
    (syms : List symtable.SymbolTable) : Nat × Option symtable.Value :=
  getValueAux key 0 syms.reverse

/-- The for-loop of loadAddressOfPreviousRecord: follow the old frame pointer
n times. -/
def chaseLoop (dest : String) : Nat → GenState → GenState
  | 0, c => c
  | n + 1, c => chaseLoop dest n (emitLoadWord c dest dest 4)

/-- Go loadAddressOfPreviousRecord: the address of the variable n activation
records back at position m, left in dest. -/
def loadAddressOfPreviousRecord (c : GenState) (dest : String) (n m : Nat) : GenState :=
  emitSubUnsigned (chaseLoop dest n (emitMove c dest "$fp")) dest dest (4 * (m : Int))

/-- The static-link chase loop of the Call case of generateStatement. -/
def staticChaseLoop : Nat → GenState → GenState
  | 0, c => c
  | n + 1, c => staticChaseLoop n (emitLoadWord c "$a0" "$a0" 4)

/-- The local-initialization loop of the Call case of generateStatement (also
the shape of the loop in generateProgram). -/
def localsLoop : Nat → GenState → GenState
  | 0, c => c
  | n + 1, c =>
    localsLoop n (emitSubUnsigned (emitStoreWord (emitLoadInt c "$a0" 0) "$a0" "$sp" 0) "$sp" "$sp" 4)

/-- Go syms[len(syms)-1].Put(key, &value): update the last table of the stack;
none models the index panic on an empty stack. -/
def putLastTable :
    List symtable.SymbolTable → symtable.Key → symtable.Value →
    Option (List symtable.SymbolTable)
  | [], _, _ => none
  | [t], k, v => some [t.Put k v]
  | t :: t2 :: rest, k, v =>
    match putLastTable (t2 :: rest) k v with
    | none => none
    | some l => some (t :: l)

/-- The Terminal branch of Go generateExpression.  Option.none models the Go
runtime panics: a nil token dereference, and the nil symbol-table value
dereference in the constant branch (reading value.Val with no nil check).  A
Terminal whose token is neither an identifier nor an integer prints the
terrible-error message and emits nothing. -/
def generateTerminalExpr (tok : Option token.Token) (syms : List symtable.SymbolTable)
    (c : GenState) : Option GenState :=
  match tok with
  | none => none
  | some tk =>
    if tk.Tag = token.Identifier then
      match getValueFromClosestSymbolTable ⟨symtable.Integer, tk.Lex⟩ syms with
      | (_, none) =>
        match getValueFromClosestSymbolTable ⟨symtable.Constant, tk.Lex⟩ syms with
        | (_, none) => none
        | (_, some value) =>
          let c1 := emitLoadInt c "$a0" value.Val
          let c2 := emitStoreWord c1 "$a0" "$sp" 0
          some (emitSubUnsigned c2 "$sp" "$sp" 4)
      | (n, some value) =>
        let c1 := loadAddressOfPreviousRecord c "$a0" n value.Order
        let c2 := emitLoadWord c1 "$a0" "$a0" 0
        let c3 := emitStoreWord c2 "$a0" "$sp" 0
        some (emitSubUnsigned c3 "$sp" "$sp" 4)
    else if tk.Tag = token.Integer then
      let c1 := emitLoadInt c "$a0" tk.Val
      let c2 := emitStoreWord c1 "$a0" "$sp" 0
      some (emitSubUnsigned c2 "$sp" "$sp" 4)
    else
      some c

/-- The arithmetic tail of the Math branch of Go generateExpression, after both
operands have been evaluated: pop the two results, apply the operator (an
unknown operator prints the terrible-error message and applies nothing), push
the result. -/
def generateMathTail (op : Nat) (c2 : GenState) : GenState :=
  let c3 := emitAddUnsigned c2 "$sp" "$sp" 4
  let c4 := emitLoadWord c3 "$t0" "$sp" 0
  let c5 := emitAddUnsigned c4 "$sp" "$sp" 4
  let c6 := emitLoadWord c5 "$t1" "$sp" 0
  let c7 :=
    if op = token.Plus then emitAdd c6 "$t0" "$t0" "$t1"
    else if op = token.Minus then emitSub c6 "$t0" "$t1" "$t0"
    else if op = token.Times then emitMoveFromLo (emitMul c6 "$t0" "$t1") "$t0"
    else if op = token.Divide then emitMoveFromLo (emitDiv c6 "$t1" "$t0") "$t0"
    else c6
  let c8 := emitStoreWord c7 "$t0" "$sp" 0
  emitSubUnsigned c8 "$sp" "$sp" 4

/-- Go generateExpression.  Option.none models the Go runtime panics: a nil
node dereference and a missing child index, plus the panics of
generateTerminalExpr. -/
def generateExpression :
    Option (ast.Node symtable.SymbolTable) → List symtable.SymbolTable → GenState →
    Option GenState
  | none, _, _ => none
  | some (.mk tag op tok _sym children), syms, c =>
    if tag = ast.Terminal then
      generateTerminalExpr tok syms c
    else
      match children with
      | left :: right :: _ =>
        match generateExpression left syms c with
        | none => none
        | some c1 =>
          match generateExpression right syms c1 with
          | none => none
          | some c2 => some (generateMathTail op c2)
      | _ => none
termination_by e _ _ => sizeOf e

/-- Go generateCondition: evaluate the one or two operand expressions, pop the
results, and emit the branch for the operator; an unknown operator prints the
terrible-error message and emits nothing further. -/
def generateCondition (node : Option (ast.Node symtable.SymbolTable)) (label : String)
    (syms : List symtable.SymbolTable) (c : GenState) : Option GenState :=
  match node with
  | none => none
  | some n =>
    if n.tag = ast.Odd then
      match n.children.get? 0 with
      | none => none
      | some child =>
        match generateExpression child syms c with
        | none => none
        | some c1 =>
          let c2 := emitAddUnsigned c1 "$sp" "$sp" 4
          let c3 := emitLoadWord c2 "$t0" "$sp" 0
          let c4 := emitAndImmediate c3 "$t0" "$t0" 1
          some (emitBranchOnGreaterThanZero c4 "$t0" label)
    else
      match n.children.get? 0, n.children.get? 1 with
      | some e1, some e2 =>
        match generateExpression e1 syms c with
        | none => none
        | some c1 =>
          match generateExpression e2 syms c1 with
          | none => none
          | some c2 =>
            let c3 := emitAddUnsigned c2 "$sp" "$sp" 4
            let c4 := emitLoadWord c3 "$t0" "$sp" 0
            let c5 := emitAddUnsigned c4 "$sp" "$sp" 4
            let c6 := emitLoadWord c5 "$t1" "$sp" 0
            if n.op = token.Equals then some (emitBranchOnEqual c6 "$t0" "$t1" label)
            else if n.op = token.NotEquals then some (emitBranchNotEqual c6 "$t0" "$t1" label)
            else if n.op = token.LessThan then
              some (emitBranchOnGreaterThanZero (emitSub c6 "$t0" "$t0" "$t1") "$t0" label)
            else if n.op = token.GreaterThan then
              some (emitBranchOnGreaterThanZero (emitSub c6 "$t0" "$t1" "$t0") "$t1" label)
            else if n.op = token.LessThanEqualTo then
              some (emitBranchOnGreaterThanOrEqualZero (emitSub c6 "$t0" "$t0" "$t1") "$t0" label)
            else if n.op = token.GreaterThanEqualTo then
              some (emitBranchOnGreaterThanOrEqualZero (emitSub c6 "$t0" "$t1" "$t0") "$t0" label)
            else some c6
      | _, _ => none

mutual

/-- Go generateStatement.  Option.none models the runtime panics (nil node,
missing children, nil token, nil symbol-table value); the unknown-tag default
prints the terrible-error message and emits nothing. -/
def generateStatement :
    Option (ast.Node symtable.SymbolTable) → List symtable.SymbolTable → GenState →
    Option GenState
  | none, _, _ => none
  | some (.mk tag _op _tok _sym children), syms, c =>
    if tag = ast.Assignment then
      match children with
      | iden? :: expr? :: _ =>
        match iden? with
        | none => none
        | some iden =>
          match iden.tok with
          | none => none
          | some itok =>
            let look := getValueFromClosestSymbolTable ⟨symtable.Integer, itok.Lex⟩ syms
            match generateExpression expr? syms c with
            | none => none
            | some c1 =>
              let c2 := emitAddUnsigned c1 "$sp" "$sp" 4
              let c3 := emitLoadWord c2 "$a0" "$sp" 0
              match look.2 with
              | none => none
              | some value =>
                let c4 := loadAddressOfPreviousRecord c3 "$t0" look.1 value.Order
                some (emitStoreWord c4 "$a0" "$t0" 0)
      | _ => none
    else if tag = ast.Call then
      match children with
      | iden? :: _ =>
        match iden? with
        | none => none
        | some iden =>
          match iden.tok with
          | none => none
          | some itok =>
            match getValueFromClosestSymbolTable ⟨symtable.Procedure, itok.Lex⟩ syms with
            | (n, look) =>
              match look with
              | none => none
              | some value =>
                let c1 := emitStoreWord c "$fp" "$sp" 0
                let c2 := emitSubUnsigned c1 "$sp" "$sp" 4
                let c3 := emitMove c2 "$a0" "$fp"
                let c4 := staticChaseLoop n c3
                let c5 := emitStoreWord c4 "$a0" "$sp" 0
                let c6 := emitSubUnsigned c5 "$sp" "$sp" 4
                let c7 := emitMove c6 "$fp" "$sp"
                let c8 := localsLoop value.NumVars c7
                some (emitJumpAndLink c8 value.Label)
      | _ => none
    else if tag = ast.Begin then
      generateStatementList children syms c
    else if tag = ast.IfThen then
      match children with
      | cond :: stmt :: _ =>
        match getNewLabel c "if" with
        | (label, c1) =>
          let doneLabel := label ++ "_done"
          match generateCondition cond label syms c1 with
          | none => none
          | some c2 =>
            let c3 := emitJump c2 doneLabel
            let c4 := emitLabel c3 label
            match generateStatement stmt syms c4 with
            | none => none
            | some c5 => some (emitLabel c5 doneLabel)
      | _ => none
    else if tag = ast.WhileDo then
      match children with
      | cond :: stmt :: _ =>
        match getNewLabel c "while" with
        | (label, c1) =>
          let doLabel := label ++ "_do"
          match getNewLabel c1 "done" with
          | (doneLabel, c2) =>
            let c3 := emitLabel c2 label
            match generateCondition cond doLabel syms c3 with
            | none => none
            | some c4 =>
              let c5 := emitJump c4 doneLabel
              let c6 := emitLabel c5 doLabel
              match generateStatement stmt syms c6 with
              | none => none
              | some c7 =>
                let c8 := emitJump c7 label
                some (emitLabel c8 doneLabel)
      | _ => none
    else if tag = ast.Print then
      match children with
      | expr :: _ =>
        match generateExpression expr syms c with
        | none => none
        | some c1 =>
          let c2 := emitAddUnsigned c1 "$sp" "$sp" 4
          let c3 := emitLoadWord c2 "$a0" "$sp" 0
          let c4 := emitLoadInt c3 "$v0" 1
          let c5 := emitSyscall c4
          let c6 := emitLoadInt c5 "$a0" 10
          let c7 := emitLoadInt c6 "$v0" 11
          some (emitSyscall c7)
      | _ => none
    else
      some c

/-- The range loop of the Begin case of generateStatement. -/
def generateStatementList :
    List (Option (ast.Node symtable.SymbolTable)) → List symtable.SymbolTable → GenState →
    Option GenState
  | [], _, c => some c
  | s :: rest, syms, c =>
    match generateStatement s syms c with
    | none => none
    | some c1 => generateStatementList rest syms c1

end

end codegen

namespace codegen

mutual

/-- Go generateProcedure: iterate over the procedure children of a
ProcedureParent node.  Symbol-table mutation through the shared stack (the Put
into the closest table, seen later by call sites) is modelled by threading the
updated stack through and out of the function. -/
def generateProcedure :
    Option (ast.Node symtable.SymbolTable) → List symtable.SymbolTable → GenState →
    Option (GenState × List symtable.SymbolTable)
  | none, _, _ => none
  | some (.mk _tag _op _tok _sym children), syms, c => generateProcedureList children syms c

/-- The range loop of generateProcedure, one procedure child at a time. -/
def generateProcedureList :
    List (Option (ast.Node symtable.SymbolTable)) → List symtable.SymbolTable → GenState →
    Option (GenState × List symtable.SymbolTable)
  | [], syms, c => some (c, syms)
  | none :: _, _, _ => none
  | some (.mk _ptag _pop _ptok _psym pchildren) :: rest, syms, c =>
    match pchildren with
    | iden? :: bloc? :: _ =>
      match bloc? with
      | none => none
      | some (.mk _btag _bop _btok bsym bchildren) =>
        match bchildren with
        | _bc0 :: vars? :: proc? :: stmt? :: _ =>
          match vars? with
          | none => none
          | some vars =>
            let numVars := vars.children.length
            match getNewLabel c "procedure" with
            | (label, c1) =>
              let c2 := emitLabel c1 label
              let bodyLabel := label ++ "_body"
              let doneLabel := label ++ "_done"
              let c3 := emitStoreWord c2 "$ra" "$sp" 0
              let c4 := emitSubUnsigned c3 "$sp" "$sp" 4
              match iden? with
              | none => none
              | some iden =>
                match iden.tok with
                | none => none
                | some itok =>
                  let value : symtable.Value :=
                    { Label := label, Order := 0, Val := 0, NumVars := numVars }
                  match putLastTable syms ⟨symtable.Procedure, itok.Lex⟩ value with
                  | none => none
                  | some syms1 =>
                    let c5 := emitJump c4 bodyLabel
                    match bsym with
                    | none => none
                    | some blocTable =>
                      match generateProcedure proc? (syms1 ++ [blocTable]) c5 with
                      | none => none
                      | some (c6, nestSyms) =>
                        let c7 := emitLabel c6 bodyLabel
                        match generateStatement stmt? nestSyms c7 with
                        | none => none
                        | some c8 =>
                          let c9 := emitLabel c8 doneLabel
                          let c10 := emitLoadWord c9 "$ra" "$sp" 4
                          let c11 := emitAddUnsigned c10 "$sp" "$sp" (4 * (numVars : Int) + 12)
                          let c12 := emitLoadWord c11 "$fp" "$sp" 0
                          let c13 := emitJumpReturn c12
                          generateProcedureList rest syms1 c13
        | _ => none
    | _ => none

end

end codegen

namespace mach

/-- Machine state for the emitted assembly fragment: integer registers addressed
by name, word-addressed memory over integer addresses, and the LO register of
the multiply/divide unit.  Register and memory words are unbounded integers;
the spec leaves overflow behaviour to the target arithmetic. -/
structure Mach where
  regs : String → Int
  mem : Int → Int
  lo : Int

/-- Write a register. -/
def setReg (m : Mach) (r : String) (v : Int) : Mach :=
  { m with regs := fun x => if x = r then v else m.regs x }

/-- Write a memory word. -/
def setMem (m : Mach) (a v : Int) : Mach :=
  { m with mem := fun x => if x = a then v else m.mem x }

/-- Effect of one instruction on the machine state.  Branches, jumps, labels
and syscalls do not modify registers or memory; whether a branch is taken is
the separate predicate branchTaken.  Division truncates toward zero as the MIPS
div instruction does. -/
def execInstr (m : Mach) : codegen.Instr → Mach
  | .andi t s imm => setReg m t (Int.land (m.regs s) imm)
  | .lw t s off => setReg m t (m.mem (m.regs s + off))
  | .li t imm => setReg m t imm
  | .sw t s off => setMem m (m.regs s + off) (m.regs t)
  | .addu d s imm => setReg m d (m.regs s + imm)
  | .subu d s imm => setReg m d (m.regs s - imm)
  | .add d s t => setReg m d (m.regs s + m.regs t)
  | .sub d s t => setReg m d (m.regs s - m.regs t)
  | .mult s t => { m with lo := m.regs s * m.regs t }
  | .div s t => { m with lo := Int.tdiv (m.regs s) (m.regs t) }
  | .mflo d => setReg m d m.lo
  | .move t s => setReg m t (m.regs s)
  | _ => m

/-- Execute a straight-line instruction sequence. -/
def execs (l : List codegen.Instr) (m : Mach) : Mach :=
  l.foldl execInstr m

/-- Whether a branch instruction is taken in the given state. -/
def branchTaken (m : Mach) : codegen.Instr → Bool
  | .bgtz s _ => decide (0 < m.regs s)
  | .bgez s _ => decide (0 ≤ m.regs s)
  | .beq s t _ => decide (m.regs s = m.regs t)
  | .bne s t _ => decide (¬ m.regs s = m.regs t)
  | .j _ => true
  | _ => false

@[simp]
theorem execs_nil (m : Mach) : execs [] m = m := rfl

@[simp]
theorem execs_cons (i : codegen.Instr) (l : List codegen.Instr) (m : Mach) :
    execs (i :: l) m = execs l (execInstr m i) := rfl

theorem execs_append (l1 l2 : List codegen.Instr) (m : Mach) :
    execs (l1 ++ l2) m = execs l2 (execs l1 m) := by
  simp [execs, List.foldl_append]

@[simp]
theorem setReg_regs (m : Mach) (r : String) (v : Int) (x : String) :
    (setReg m r v).regs x = if x = r then v else m.regs x := rfl

@[simp]
theorem setReg_mem (m : Mach) (r : String) (v : Int) :
    (setReg m r v).mem = m.mem := rfl

@[simp]
theorem setReg_lo (m : Mach) (r : String) (v : Int) :
    (setReg m r v).lo = m.lo := rfl

@[simp]
theorem setMem_mem (m : Mach) (a v : Int) (x : Int) :
    (setMem m a v).mem x = if x = a then v else m.mem x := rfl

@[simp]
theorem setMem_regs (m : Mach) (a v : Int) :
    (setMem m a v).regs = m.regs := rfl

@[simp]
theorem setMem_lo (m : Mach) (a v : Int) :
    (setMem m a v).lo = m.lo := rfl

/-- The all-zero machine state, for concrete executions. -/
def zeroMach : Mach :=
  { regs := fun _ => 0, mem := fun _ => 0, lo := 0 }

end mach

namespace codegen

/-- The comparison code emitted by generateCondition for the less-than operator,
after the two operand expressions have been evaluated: pop into target zero and
target one, subtract, and branch on the difference register. -/
def ltSuffix (label : String) : List Instr :=
  [.addu "$sp" "$sp" 4, .lw "$t0" "$sp" 0, .addu "$sp" "$sp" 4, .lw "$t1" "$sp" 0,
   .sub "$t0" "$t0" "$t1", .bgtz "$t0" label]

/-- The comparison code emitted by generateCondition for the greater-than
operator: pop into target zero and target one, subtract into target zero, but
branch on target one, the register still holding the left operand. -/
def gtSuffix (label : String) : List Instr :=
  [.addu "$sp" "$sp" 4, .lw "$t0" "$sp" 0, .addu "$sp" "$sp" 4, .lw "$t1" "$sp" 0,
   .sub "$t0" "$t1" "$t0", .bgtz "$t1" label]

end codegen

namespace codegen

/-- C1 (amended). -/
theorem C1_less_than_condition (e1 e2 : Option (ast.Node symtable.SymbolTable))
    (tok : Option token.Token) (sym : Option symtable.SymbolTable)
    (rest : List (Option (ast.Node symtable.SymbolTable)))
    (lab : String) (syms : List symtable.SymbolTable) (c c2 : GenState)
    (hgen : (generateExpression e1 syms c).bind (fun s => generateExpression e2 syms s) = some c2)
    (l r : Int) (m : mach.Mach)
    (hsp8 : m.mem (m.regs "$sp" + 8) = l) (hsp4 : m.mem (m.regs "$sp" + 4) = r) :
    generateCondition (some (.mk ast.Cond token.LessThan tok sym (e1 :: e2 :: rest))) lab syms c
      = some { c2 with buf := c2.buf ++ ltSuffix lab } ∧
    (mach.branchTaken (mach.execs ((ltSuffix lab).dropLast) m) (.bgtz "$t0" lab) = true ↔ r - l > 0) := by
  obtain ⟨c1, h1, h2⟩ : ∃ c1, generateExpression e1 syms c = some c1 ∧
      generateExpression e2 syms c1 = some c2 := by
    cases h : generateExpression e1 syms c with
    | none => rw [h] at hgen; simp at hgen
    | some c1 => rw [h] at hgen; simp at hgen; exact ⟨c1, rfl, hgen⟩
  constructor
  · simp only [generateCondition, ast.Node.tag, ast.Node.op, ast.Node.children]
    norm_num [ast.Cond, ast.Odd, token.LessThan, token.Equals, token.NotEquals]
    rw [h1]
    simp [h2, emitAddUnsigned, emitLoadWord, emitSub, emitBranchOnGreaterThanZero, writeOut,
      ltSuffix]
  · have addr8 : m.regs "$sp" + 4 + 4 = m.regs "$sp" + 8 := by ring
    simp only [ltSuffix, List.dropLast, mach.execs_cons, mach.execs_nil]
    simp [mach.execInstr, mach.branchTaken, addr8, hsp8, hsp4]

end codegen

namespace codegen

/-- Integer-literal token, for concrete abstract syntax trees. -/
def intTok (v : Int) : token.Token :=
  { Tag := token.Integer, Val := v, Ln := 0, Lex := "", Err := .none }

/-- Terminal node holding an integer literal. -/
def litNode (v : Int) : ast.Node symtable.SymbolTable :=
  .mk ast.Terminal 0 (some (intTok v)) none []

/-- The push code emitted by generateExpression for one integer literal. -/
def litPush (v : Int) : List Instr :=
  [.li "$a0" v, .sw "$a0" "$sp" 0, .subu "$sp" "$sp" 4]

/-- Code emitted for the less-than condition with literal operands one (left)
and zero (right). -/
def c1buf : List Instr :=
  litPush 1 ++ litPush 0 ++ ltSuffix "L"

/-- C1 counterexample: for the Cond node comparing the literals one and zero
with the less-than operator, the left operand exceeds the right one, so the
claim predicts the emitted bgtz is taken; executing the emitted code shows the
branch is not taken. -/
theorem C1_counterexample :
    generateCondition
        (some (.mk ast.Cond token.LessThan none none [some (litNode 1), some (litNode 0)]))
        "L" [] { buf := [], count := 0 }
      = some { buf := c1buf, count := 0 } ∧
    mach.branchTaken (mach.execs (c1buf.dropLast) mach.zeroMach) (.bgtz "$t0" "L") = false ∧
    (1 : Int) - 0 > 0 := by
  refine ⟨?_, by decide, by decide⟩
  simp [generateCondition, generateExpression, generateTerminalExpr, litNode, intTok, ast.Node.tag, ast.Node.op,
    ast.Node.children, c1buf, litPush, ltSuffix, token.LessThan, token.Equals, token.NotEquals,
    token.Identifier, token.Integer, ast.Cond, ast.Odd, ast.Terminal,
    emitAddUnsigned, emitLoadWord, emitSub, emitBranchOnGreaterThanZero, emitLoadInt,
    emitStoreWord, emitSubUnsigned, writeOut]

/-- Machine state used by the C1 witness: the two top stack words hold the
operand values two (left, pushed first) and seven (right, on top). -/
def c1WitnessMach : mach.Mach :=
  { regs := fun _ => 0, mem := fun a => if a = 8 then 2 else if a = 4 then 7 else 0, lo := 0 }

theorem C1_less_than_condition_witness :
    ((generateExpression (some (litNode 2)) [] { buf := [], count := 0 }).bind
        (fun s => generateExpression (some (litNode 7)) [] s)
      = some { buf := litPush 2 ++ litPush 7, count := 0 }) ∧
    c1WitnessMach.mem (c1WitnessMach.regs "$sp" + 8) = 2 ∧
    c1WitnessMach.mem (c1WitnessMach.regs "$sp" + 4) = 7 ∧
    (generateCondition
        (some (.mk ast.Cond token.LessThan none none [some (litNode 2), some (litNode 7)]))
        "L" [] { buf := [], count := 0 }
      = some { buf := (litPush 2 ++ litPush 7) ++ ltSuffix "L", count := 0 } ∧
     (mach.branchTaken (mach.execs ((ltSuffix "L").dropLast) c1WitnessMach)
        (.bgtz "$t0" "L") = true ↔ (7 : Int) - 2 > 0)) := by
  have hgen : (generateExpression (some (litNode 2)) [] { buf := [], count := 0 }).bind
      (fun s => generateExpression (some (litNode 7)) [] s)
      = some { buf := litPush 2 ++ litPush 7, count := 0 } := by
    simp [generateExpression, generateTerminalExpr, litNode, intTok, litPush, token.Identifier, token.Integer,
      ast.Terminal, emitLoadInt, emitStoreWord, emitSubUnsigned, writeOut]
  exact ⟨hgen, by decide, by decide,
    C1_less_than_condition (some (litNode 2)) (some (litNode 7)) none none [] "L" []
      { buf := [], count := 0 } { buf := litPush 2 ++ litPush 7, count := 0 } hgen
      2 7 c1WitnessMach (by decide) (by decide)⟩

/-- C2 (amended). -/
theorem C2_greater_than_condition (e1 e2 : Option (ast.Node symtable.SymbolTable))
    (tok : Option token.Token) (sym : Option symtable.SymbolTable)
    (rest : List (Option (ast.Node symtable.SymbolTable)))
    (lab : String) (syms : List symtable.SymbolTable) (c c2 : GenState)
    (hgen : (generateExpression e1 syms c).bind (fun s => generateExpression e2 syms s) = some c2)
    (l r : Int) (m : mach.Mach)
    (hsp8 : m.mem (m.regs "$sp" + 8) = l) (hsp4 : m.mem (m.regs "$sp" + 4) = r) :
    generateCondition (some (.mk ast.Cond token.GreaterThan tok sym (e1 :: e2 :: rest))) lab syms c
      = some { c2 with buf := c2.buf ++ gtSuffix lab } ∧
    (mach.execs ((gtSuffix lab).dropLast) m).regs "$t1" = l ∧
    (mach.execs ((gtSuffix lab).dropLast) m).regs "$t0" = l - r ∧
    (mach.branchTaken (mach.execs ((gtSuffix lab).dropLast) m) (.bgtz "$t1" lab) = true ↔ l > 0) := by
  obtain ⟨c1, h1, h2⟩ : ∃ c1, generateExpression e1 syms c = some c1 ∧
      generateExpression e2 syms c1 = some c2 := by
    cases h : generateExpression e1 syms c with
    | none => rw [h] at hgen; simp at hgen
    | some c1 => rw [h] at hgen; simp at hgen; exact ⟨c1, rfl, hgen⟩
  have addr8 : m.regs "$sp" + 4 + 4 = m.regs "$sp" + 8 := by ring
  refine ⟨?_, ?_, ?_, ?_⟩
  · simp only [generateCondition, ast.Node.tag, ast.Node.op, ast.Node.children]
    norm_num [ast.Cond, ast.Odd, token.GreaterThan, token.LessThan, token.Equals, token.NotEquals]
    rw [h1]
    simp [h2, emitAddUnsigned, emitLoadWord, emitSub, emitBranchOnGreaterThanZero, writeOut,
      gtSuffix]
  · simp only [gtSuffix, List.dropLast, mach.execs_cons, mach.execs_nil]
    simp [mach.execInstr, addr8, hsp8, hsp4]
  · simp only [gtSuffix, List.dropLast, mach.execs_cons, mach.execs_nil]
    simp [mach.execInstr, addr8, hsp8, hsp4]
  · simp only [gtSuffix, List.dropLast, mach.execs_cons, mach.execs_nil]
    simp [mach.execInstr, mach.branchTaken, addr8, hsp8, hsp4]

/-- Code emitted for the greater-than condition with literal operands zero
(left) and five (right). -/
def c2buf : List Instr :=
  litPush 0 ++ litPush 5 ++ gtSuffix "L"

/-- C2 counterexample: for the Cond node comparing the literals zero and five
with the greater-than operator, the claim predicts the branch is taken (right
minus left is positive) and that the bgtz tests the difference register; the
emitted code branches on the raw register holding the left operand, and the
branch is not taken. -/
theorem C2_counterexample :
    generateCondition
        (some (.mk ast.Cond token.GreaterThan none none [some (litNode 0), some (litNode 5)]))
        "L" [] { buf := [], count := 0 }
      = some { buf := c2buf, count := 0 } ∧
    c2buf.getLast? = some (.bgtz "$t1" "L") ∧
    mach.branchTaken (mach.execs (c2buf.dropLast) mach.zeroMach) (.bgtz "$t1" "L") = false ∧
    (5 : Int) - 0 > 0 := by
  refine ⟨?_, by decide, by decide, by decide⟩
  simp [generateCondition, generateExpression, generateTerminalExpr, litNode, intTok, ast.Node.tag, ast.Node.op,
    ast.Node.children, c2buf, litPush, gtSuffix, token.GreaterThan, token.LessThan, token.Equals,
    token.NotEquals, token.Identifier, token.Integer, ast.Cond, ast.Odd, ast.Terminal,
    emitAddUnsigned, emitLoadWord, emitSub, emitBranchOnGreaterThanZero, emitLoadInt,
    emitStoreWord, emitSubUnsigned, writeOut]

/-- Machine state used by the C2 witness: stack holds left value three and
right value nine. -/
def c2WitnessMach : mach.Mach :=
  { regs := fun _ => 0, mem := fun a => if a = 8 then 3 else if a = 4 then 9 else 0, lo := 0 }

theorem C2_greater_than_condition_witness :
    ((generateExpression (some (litNode 3)) [] { buf := [], count := 0 }).bind
        (fun s => generateExpression (some (litNode 9)) [] s)
      = some { buf := litPush 3 ++ litPush 9, count := 0 }) ∧
    c2WitnessMach.mem (c2WitnessMach.regs "$sp" + 8) = 3 ∧
    c2WitnessMach.mem (c2WitnessMach.regs "$sp" + 4) = 9 ∧
    (generateCondition
        (some (.mk ast.Cond token.GreaterThan none none [some (litNode 3), some (litNode 9)]))
        "L" [] { buf := [], count := 0 }
      = some { buf := (litPush 3 ++ litPush 9) ++ gtSuffix "L", count := 0 } ∧
     (mach.execs ((gtSuffix "L").dropLast) c2WitnessMach).regs "$t1" = 3 ∧
     (mach.execs ((gtSuffix "L").dropLast) c2WitnessMach).regs "$t0" = 3 - 9 ∧
     (mach.branchTaken (mach.execs ((gtSuffix "L").dropLast) c2WitnessMach)
        (.bgtz "$t1" "L") = true ↔ (3 : Int) > 0)) := by
  have hgen : (generateExpression (some (litNode 3)) [] { buf := [], count := 0 }).bind
      (fun s => generateExpression (some (litNode 9)) [] s)
      = some { buf := litPush 3 ++ litPush 9, count := 0 } := by
    simp [generateExpression, generateTerminalExpr, litNode, intTok, litPush, token.Identifier, token.Integer,
      ast.Terminal, emitLoadInt, emitStoreWord, emitSubUnsigned, writeOut]
  exact ⟨hgen, by decide, by decide,
    C2_greater_than_condition (some (litNode 3)) (some (litNode 9)) none none [] "L" []
      { buf := [], count := 0 } { buf := litPush 3 ++ litPush 9, count := 0 } hgen
      3 9 c2WitnessMach (by decide) (by decide)⟩

end codegen

namespace codegen

/-- Identifier token, for concrete abstract syntax trees. -/
def identTok (lex : String) : token.Token :=
  { Tag := token.Identifier, Val := 0, Ln := 0, Lex := lex, Err := .none }

/-- C6: a Terminal identifier that denotes a constant (no kind-Integer entry in
any visible table, a kind-Constant entry in the closest table holding one) is
compiled to a load-immediate of the literal value pushed onto the operand
stack; no lw instruction is emitted for it. -/
theorem C6_constant_inlined (tk : token.Token) (op : Nat)
    (sym : Option symtable.SymbolTable)
    (children : List (Option (ast.Node symtable.SymbolTable)))
    (syms : List symtable.SymbolTable) (c : GenState) (v : symtable.Value)
    (hid : tk.Tag = token.Identifier)
    (hInt : (getValueFromClosestSymbolTable ⟨symtable.Integer, tk.Lex⟩ syms).2 = none)
    (hConst : (getValueFromClosestSymbolTable ⟨symtable.Constant, tk.Lex⟩ syms).2 = some v) :
    generateExpression (some (.mk ast.Terminal op (some tk) sym children)) syms c
      = some { c with buf := c.buf ++ [.li "$a0" v.Val, .sw "$a0" "$sp" 0, .subu "$sp" "$sp" 4] } ∧
    ∀ i ∈ [Instr.li "$a0" v.Val, .sw "$a0" "$sp" 0, .subu "$sp" "$sp" 4],
      ∀ t s off, i ≠ .lw t s off := by
  constructor
  · rcases hpair : getValueFromClosestSymbolTable ⟨symtable.Integer, tk.Lex⟩ syms with ⟨n1, o1⟩
    rcases hcpair : getValueFromClosestSymbolTable ⟨symtable.Constant, tk.Lex⟩ syms with ⟨n2, o2⟩
    have h1 : o1 = none := by rw [hpair] at hInt; exact hInt
    have h2 : o2 = some v := by rw [hcpair] at hConst; exact hConst
    subst h1 h2
    rw [generateExpression.eq_def]
    simp [generateTerminalExpr, hid, hpair, hcpair, emitLoadInt,
      emitStoreWord, emitSubUnsigned, writeOut]
  · intro i hi
    fin_cases hi <;> exact fun t s off h => Instr.noConfusion h

end codegen

namespace codegen

/-- Symbol table used by the C6 witness: one table declaring x as a constant
with value forty-two. -/
def c6Table : symtable.SymbolTable :=
  { table := [(⟨symtable.Constant, "x"⟩, { Label := "", Order := 0, Val := 42, NumVars := 0 })] }

/-- The constant value recorded for x in the C6 witness table. -/
def c6Value : symtable.Value :=
  { Label := "", Order := 0, Val := 42, NumVars := 0 }

theorem C6_constant_inlined_witness :
    ((identTok "x").Tag = token.Identifier ∧
     (getValueFromClosestSymbolTable ⟨symtable.Integer, (identTok "x").Lex⟩ [c6Table]).2 = none ∧
     (getValueFromClosestSymbolTable ⟨symtable.Constant, (identTok "x").Lex⟩ [c6Table]).2
        = some c6Value) ∧
    (generateExpression (some (.mk ast.Terminal 0 (some (identTok "x")) none [])) [c6Table]
        { buf := [], count := 0 }
      = some { buf := ([] : List Instr) ++ [.li "$a0" c6Value.Val, .sw "$a0" "$sp" 0, .subu "$sp" "$sp" 4],
               count := 0 } ∧
     ∀ i ∈ [Instr.li "$a0" c6Value.Val, .sw "$a0" "$sp" 0, .subu "$sp" "$sp" 4],
       ∀ t s off, i ≠ .lw t s off) :=
  ⟨⟨by decide, by decide, by decide⟩,
   C6_constant_inlined (identTok "x") 0 none [] [c6Table] { buf := [], count := 0 } c6Value
     (by decide) (by decide) (by decide)⟩

/-- Precondition of C10: every identifier occurring in the expression tree is
registered with kind Integer or kind Constant in some visible symbol table (as
the analyser guarantees for an accepted program), and the tree is shaped as
generateExpression expects (Terminal nodes carry a token, other nodes carry at
least two children). -/
inductive ExprSafe (syms : List symtable.SymbolTable) :
    Option (ast.Node symtable.SymbolTable) → Prop where
  | term (op : Nat) (tk : token.Token) (sym : Option symtable.SymbolTable)
      (children : List (Option (ast.Node symtable.SymbolTable)))
      (hreg : tk.Tag = token.Identifier →
        (getValueFromClosestSymbolTable ⟨symtable.Integer, tk.Lex⟩ syms).2 ≠ none ∨
        (getValueFromClosestSymbolTable ⟨symtable.Constant, tk.Lex⟩ syms).2 ≠ none) :
      ExprSafe syms (some (.mk ast.Terminal op (some tk) sym children))
  | math (tag op : Nat) (tok : Option token.Token) (sym : Option symtable.SymbolTable)
      (left right : Option (ast.Node symtable.SymbolTable))
      (rest : List (Option (ast.Node symtable.SymbolTable)))
      (htag : tag ≠ ast.Terminal)
      (hl : ExprSafe syms left) (hr : ExprSafe syms right) :
      ExprSafe syms (some (.mk tag op tok sym (left :: right :: rest)))

/-- C10: under the registration precondition the nil dereference in the
constant branch of generateExpression is unreachable (the generator returns a
state for every safe expression), while an abstract syntax tree violating the
precondition (an identifier registered nowhere) makes the kind-Constant lookup
return nil and the dereference fault. -/
theorem C10_constant_lookup_nil_deref (syms : List symtable.SymbolTable)
    (e : Option (ast.Node symtable.SymbolTable)) (h : ExprSafe syms e) (c : GenState) :
    (generateExpression e syms c).isSome ∧
    generateExpression (some (.mk ast.Terminal 0 (some (identTok "y")) none []))
        [] { buf := [], count := 0 } = none := by
  constructor
  · induction h generalizing c with
    | term op tk sym children hreg =>
      rw [generateExpression.eq_def]
      simp only [ast.Terminal, if_pos rfl, reduceIte, generateTerminalExpr]
      by_cases hTag : tk.Tag = token.Identifier
      · rcases hpair : getValueFromClosestSymbolTable ⟨symtable.Integer, tk.Lex⟩ syms
          with ⟨n1, o1⟩
        cases o1 with
        | some v => simp [hTag, hpair]
        | none =>
          rcases hcpair : getValueFromClosestSymbolTable ⟨symtable.Constant, tk.Lex⟩ syms
            with ⟨n2, o2⟩
          cases o2 with
          | some v => simp [hTag, hpair, hcpair]
          | none =>
            rcases hreg hTag with hbad | hbad
            · rw [hpair] at hbad; simp at hbad
            · rw [hcpair] at hbad; simp at hbad
      · by_cases hInt : tk.Tag = token.Integer
        · simp [hTag, hInt, token.Integer, token.Identifier]
        · simp [hTag, hInt]
    | math tag op tok sym left right rest htag hl hr ihl ihr =>
      rw [generateExpression.eq_def]
      simp only [htag, reduceIte, if_neg htag]
      rcases hle : generateExpression left syms c with _ | c1
      · have := ihl c
        rw [hle] at this
        simp at this
      · rcases hre : generateExpression right syms c1 with _ | c2
        · have := ihr c1
          rw [hre] at this
          simp at this
        · simp [hle, hre]
  · rw [generateExpression.eq_def]
    simp [generateTerminalExpr, identTok, getValueFromClosestSymbolTable, getValueAux]

/-- The safe expression used by the C10 witness: the literal four. -/
def c10Expr : Option (ast.Node symtable.SymbolTable) :=
  some (litNode 4)

theorem C10_constant_lookup_nil_deref_witness :
    ExprSafe [] c10Expr ∧
    ((generateExpression c10Expr [] { buf := [], count := 0 }).isSome ∧
     generateExpression (some (.mk ast.Terminal 0 (some (identTok "y")) none []))
        [] { buf := [], count := 0 } = none) := by
  have hsafe : ExprSafe [] c10Expr :=
    ExprSafe.term 0 (intTok 4) none [] (by intro hbad; exact absurd hbad (by decide))
  exact ⟨hsafe, C10_constant_lookup_nil_deref [] c10Expr hsafe { buf := [], count := 0 }⟩

end codegen

namespace codegen

/-- Per-step specification of the lookup loop: if position k holds the first
table along the search order that contains the key, the loop returns distance
d + k with that value. -/
theorem getValueAux_closest (key : symtable.Key) :
    ∀ (L : List symtable.SymbolTable) (k d : Nat) (t : symtable.SymbolTable)
      (v : symtable.Value), L[k]? = some t → t.Get key = some v →
      (∀ k2 t2, k2 < k → L[k2]? = some t2 → t2.Get key = none) →
      getValueAux key d L = (d + k, some v)
  | [], k, d, t, v, hk, _, _ => by simp at hk
  | t0 :: rest, 0, d, t, v, hk, hv, _ => by
    simp at hk
    subst hk
    simp [getValueAux, hv]
  | t0 :: rest, k + 1, d, t, v, hk, hv, hcl => by
    have h0 : t0.Get key = none := hcl 0 t0 (Nat.succ_pos k) (by simp)
    have hrec := getValueAux_closest key rest k (d + 1) t v (by simpa using hk) hv
      (fun k2 t2 hlt hk2 => hcl (k2 + 1) t2 (by omega) (by simpa using hk2))
    rw [getValueAux, h0]
    simp only
    rw [hrec]
    congr 1
    omega

/-- Unrolled form of the frame-pointer chase loop. -/
theorem chaseLoop_eq (dest : String) :
    ∀ (n : Nat) (c : GenState),
      chaseLoop dest n c = { c with buf := c.buf ++ List.replicate n (.lw dest dest 4) }
  | 0, c => by cases c; simp [chaseLoop]
  | n + 1, c => by
    cases c
    rw [chaseLoop, chaseLoop_eq dest n]
    simp [emitLoadWord, writeOut, List.replicate_succ]

/-- The activation-record access code emitted for a variable found n scopes up
at frame position m: chase the static link n times from the frame pointer,
address the slot, load it and push it. -/
def varAccessCode (n m : Nat) : List Instr :=
  [.move "$a0" "$fp"] ++ List.replicate n (.lw "$a0" "$a0" 4) ++
  [.subu "$a0" "$a0" (4 * (m : Int)), .lw "$a0" "$a0" 0, .sw "$a0" "$sp" 0, .subu "$sp" "$sp" 4]

/-- C4 (amended): identifier resolution is per kind.  First conjunct: the
lookup used by the code generator returns the innermost table containing the
requested (kind, name) key, with its distance from the top of the stack, so a
declaration shadows outer declarations of the same kind and name.  Second
conjunct: for an identifier in an expression the generator consults kind
Integer across the whole stack first, and emits the activation-record access
for the variable it finds even when a different-kind declaration (for example
a constant) is declared in a closer scope; the kind-Constant lookup is only
consulted when no visible table holds the identifier with kind Integer. -/
theorem C4_scope_resolution_per_kind (key : symtable.Key) (syms : List symtable.SymbolTable)
    (i : Nat) (t : symtable.SymbolTable) (v : symtable.Value)
    (hit : syms[i]? = some t) (hfound : t.Get key = some v)
    (hcloser : ∀ j tj, i < j → syms[j]? = some tj → tj.Get key = none) :
    getValueFromClosestSymbolTable key syms = (syms.length - 1 - i, some v) ∧
    ∀ (tk : token.Token) (op : Nat) (sym : Option symtable.SymbolTable)
      (children : List (Option (ast.Node symtable.SymbolTable))) (c : GenState)
      (n : Nat) (value : symtable.Value),
      tk.Tag = token.Identifier →
      getValueFromClosestSymbolTable ⟨symtable.Integer, tk.Lex⟩ syms = (n, some value) →
      generateExpression (some (.mk ast.Terminal op (some tk) sym children)) syms c
        = some { c with buf := c.buf ++ varAccessCode n value.Order } := by
  constructor
  · have hilen : i < syms.length := by
      rcases List.getElem?_eq_some.mp hit with ⟨h, _⟩
      exact h
    have hk : syms.reverse[syms.length - 1 - i]? = some t := by
      rw [List.getElem?_reverse (by omega)]
      have : syms.length - 1 - (syms.length - 1 - i) = i := by omega
      rw [this, hit]
    have hcl : ∀ k2 t2, k2 < syms.length - 1 - i → syms.reverse[k2]? = some t2 →
        t2.Get key = none := by
      intro k2 t2 hlt hk2
      rw [List.getElem?_reverse (by omega)] at hk2
      exact hcloser (syms.length - 1 - k2) t2 (by omega) hk2
    have := getValueAux_closest key syms.reverse (syms.length - 1 - i) 0 t v hk hfound hcl
    rw [getValueFromClosestSymbolTable, this]
    simp
  · intro tk op sym children c n value hid hlook
    rw [generateExpression.eq_def]
    cases c
    simp [generateTerminalExpr, hid, hlook, loadAddressOfPreviousRecord, chaseLoop_eq,
      emitMove, emitLoadWord, emitSubUnsigned, emitStoreWord, writeOut, varAccessCode]

/-- Outer-scope table of the C4 counterexample: x declared as a variable. -/
def c4Outer : symtable.SymbolTable :=
  { table := [(⟨symtable.Integer, "x"⟩, { Label := "", Order := 1, Val := 0, NumVars := 0 })] }

/-- Inner-scope table of the C4 counterexample: x declared as a constant with
value three. -/
def c4Inner : symtable.SymbolTable :=
  { table := [(⟨symtable.Constant, "x"⟩, { Label := "", Order := 0, Val := 3, NumVars := 0 })] }

/-- Code the generator emits for the identifier x in the C4 counterexample. -/
def c4Buf : List Instr :=
  varAccessCode 1 1

/-- C4 counterexample: with an inner constant x shadowing nothing of its own
kind and an outer variable x, the closest enclosing declaration of the name is
the inner constant, yet the generator emits the activation-record access for
the variable one scope up (an lw through the static link) and no load-immediate
of the constant value three: the inner different-kind declaration is ignored. -/
theorem C4_counterexample :
    c4Inner.Get ⟨symtable.Constant, "x"⟩
      = some { Label := "", Order := 0, Val := 3, NumVars := 0 } ∧
    generateExpression (some (.mk ast.Terminal 0 (some (identTok "x")) none []))
        [c4Outer, c4Inner] { buf := [], count := 0 }
      = some { buf := c4Buf, count := 0 } ∧
    Instr.li "$a0" 3 ∉ c4Buf ∧ Instr.lw "$a0" "$a0" 4 ∈ c4Buf := by
  refine ⟨by decide, ?_, by decide, by decide⟩
  rw [generateExpression.eq_def]
  simp [generateTerminalExpr, identTok, token.Identifier, getValueFromClosestSymbolTable,
    getValueAux, symtable.SymbolTable.Get, c4Outer, c4Inner, loadAddressOfPreviousRecord,
    chaseLoop, emitMove, emitLoadWord, emitSubUnsigned, emitStoreWord, writeOut, c4Buf,
    varAccessCode, symtable.Integer, symtable.Constant]

/-- The variable value recorded for x in the C4 witness table. -/
def c4VarValue : symtable.Value :=
  { Label := "", Order := 1, Val := 0, NumVars := 0 }

theorem C4_scope_resolution_per_kind_witness :
    (([c4Outer, c4Inner] : List symtable.SymbolTable)[0]? = some c4Outer ∧
     c4Outer.Get ⟨symtable.Integer, "x"⟩ = some c4VarValue ∧
     (∀ j tj, 0 < j → ([c4Outer, c4Inner] : List symtable.SymbolTable)[j]? = some tj →
        tj.Get ⟨symtable.Integer, "x"⟩ = none)) ∧
    (getValueFromClosestSymbolTable ⟨symtable.Integer, "x"⟩ [c4Outer, c4Inner]
        = (([c4Outer, c4Inner] : List symtable.SymbolTable).length - 1 - 0, some c4VarValue) ∧
     ∀ (tk : token.Token) (op : Nat) (sym : Option symtable.SymbolTable)
       (children : List (Option (ast.Node symtable.SymbolTable))) (c : GenState)
       (n : Nat) (value : symtable.Value),
       tk.Tag = token.Identifier →
       getValueFromClosestSymbolTable ⟨symtable.Integer, tk.Lex⟩ [c4Outer, c4Inner]
         = (n, some value) →
       generateExpression (some (.mk ast.Terminal op (some tk) sym children)) [c4Outer, c4Inner] c
         = some { c with buf := c.buf ++ varAccessCode n value.Order }) := by
  have hcloser : ∀ j tj, 0 < j → ([c4Outer, c4Inner] : List symtable.SymbolTable)[j]? = some tj →
      tj.Get ⟨symtable.Integer, "x"⟩ = none := by
    intro j tj hj hget
    rcases j with _ | _ | j
    · omega
    · simp at hget
      subst hget
      decide
    · simp at hget
  exact ⟨⟨by decide, by decide, hcloser⟩,
    C4_scope_resolution_per_kind ⟨symtable.Integer, "x"⟩ [c4Outer, c4Inner] 0 c4Outer c4VarValue
      (by decide) (by decide) hcloser⟩

end codegen

namespace codegen

/-- The local-slot initialization code of a call: one zeroed push per local. -/
def localsCode : Nat → List Instr
  | 0 => []
  | k + 1 => [.li "$a0" 0, .sw "$a0" "$sp" 0, .subu "$sp" "$sp" 4] ++ localsCode k

/-- The complete stack setup a Call statement emits before transferring
control: push the dynamic link, compute and push the static link (n hops), set
the new frame pointer, push one zero per local of the callee, and jump-and-link
to the callee label. -/
def callSetupCode (n nv : Nat) (lab : String) : List Instr :=
  [.sw "$fp" "$sp" 0, .subu "$sp" "$sp" 4, .move "$a0" "$fp"] ++
  List.replicate n (.lw "$a0" "$a0" 4) ++
  [.sw "$a0" "$sp" 0, .subu "$sp" "$sp" 4, .move "$fp" "$sp"] ++
  localsCode nv ++ [.jal lab]

/-- The instructions a procedure executes at entry: push the return address. -/
def procPrologue : List Instr :=
  [.sw "$ra" "$sp" 0, .subu "$sp" "$sp" 4]

/-- The instructions a procedure executes at exit before jr: reload the return
address, release all local slots plus the two link slots and the return-address
slot (4 times the variable count plus 12 bytes), and restore the caller frame
pointer from the dynamic-link slot. -/
def procEpilogue (nv : Nat) : List Instr :=
  [.lw "$ra" "$sp" 4, .addu "$sp" "$sp" (4 * (nv : Int) + 12), .lw "$fp" "$sp" 0]

/-- Unrolled form of the static-link chase loop of the Call case. -/
theorem staticChaseLoop_eq :
    ∀ (n : Nat) (c : GenState),
      staticChaseLoop n c = { c with buf := c.buf ++ List.replicate n (.lw "$a0" "$a0" 4) }
  | 0, c => by cases c; simp [staticChaseLoop]
  | n + 1, c => by
    cases c
    rw [staticChaseLoop, staticChaseLoop_eq n]
    simp [emitLoadWord, writeOut, List.replicate_succ]

/-- Unrolled form of the local-initialization loop of the Call case. -/
theorem localsLoop_eq :
    ∀ (nv : Nat) (c : GenState),
      localsLoop nv c = { c with buf := c.buf ++ localsCode nv }
  | 0, c => by cases c; simp [localsLoop, localsCode]
  | nv + 1, c => by
    cases c
    rw [localsLoop, localsLoop_eq nv]
    simp [localsCode, emitLoadInt, emitStoreWord, emitSubUnsigned, writeOut]

/-- Emission lemma for the Call case of generateStatement: with the procedure
resolved at distance n and value v, the emitted code is exactly the call setup
followed by the jump-and-link. -/
theorem generateStatement_call_emits (itok : token.Token)
    (idtag idop : Nat) (idsym : Option symtable.SymbolTable)
    (idchildren : List (Option (ast.Node symtable.SymbolTable)))
    (cop : Nat) (ctok : Option token.Token) (csym : Option symtable.SymbolTable)
    (crest : List (Option (ast.Node symtable.SymbolTable)))
    (syms : List symtable.SymbolTable) (c : GenState) (n : Nat) (v : symtable.Value)
    (hlook : getValueFromClosestSymbolTable ⟨symtable.Procedure, itok.Lex⟩ syms = (n, some v)) :
    generateStatement
        (some (.mk ast.Call cop ctok csym
          (some (.mk idtag idop (some itok) idsym idchildren) :: crest))) syms c
      = some { c with buf := c.buf ++ callSetupCode n v.NumVars v.Label } := by
  rw [generateStatement.eq_def]
  cases c
  simp [ast.Call, ast.Assignment, ast.Node.tok, hlook, staticChaseLoop_eq, localsLoop_eq,
    emitStoreWord, emitSubUnsigned, emitMove, emitJumpAndLink, writeOut, callSetupCode]

end codegen

namespace codegen

/-- The label generated for a procedure child at generator state c. -/
def procChildLabel (c : GenState) : String :=
  "procedure" ++ toString c.count

/-- Generator state after the entry part of one procedure child: the procedure
label, the return-address push, and the jump over the nested procedures. -/
def procChildPre (c : GenState) : GenState :=
  emitJump (emitSubUnsigned (emitStoreWord (emitLabel { c with count := c.count + 1 }
    (procChildLabel c)) "$ra" "$sp" 0) "$sp" "$sp" 4) (procChildLabel c ++ "_body")

/-- Generator state after the exit part of one procedure child, applied to the
state c8 reached after the body statement: done label, epilogue, jr. -/
def procChildPost (c8 : GenState) (lab : String) (nv : Nat) : GenState :=
  emitJumpReturn (emitLoadWord (emitAddUnsigned (emitLoadWord (emitLabel c8 (lab ++ "_done"))
    "$ra" "$sp" 4) "$sp" "$sp" (4 * (nv : Int) + 12)) "$fp" "$sp" 0)

/-- The entry part of a procedure child appends the label, the prologue and the
jump over nested procedures. -/
theorem procChildPre_buf (c : GenState) :
    (procChildPre c).buf
      = c.buf ++ [.label (procChildLabel c)] ++ procPrologue
          ++ [.j (procChildLabel c ++ "_body")] := by
  cases c
  simp [procChildPre, procChildLabel, emitJump, emitSubUnsigned, emitStoreWord, emitLabel,
    writeOut, procPrologue]

/-- The exit part of a procedure child appends the done label, the epilogue
releasing 4 times the variable count plus 12 bytes, and the jr. -/
theorem procChildPost_buf (c8 : GenState) (lab : String) (nv : Nat) :
    (procChildPost c8 lab nv).buf
      = c8.buf ++ [.label (lab ++ "_done")] ++ procEpilogue nv ++ [.jr] := by
  cases c8
  simp [procChildPost, emitJumpReturn, emitLoadWord, emitAddUnsigned, emitLabel, writeOut,
    procEpilogue]

/-- One-step unfolding of the procedure loop: a procedure child whose nested
procedures and body generate successfully contributes its label, the prologue,
the jump over the nested code, the nested code, the body label and body, the
done label, the epilogue and the jr, and the loop continues with the table
stack carrying the procedure entry. -/
theorem generateProcedureList_child_eq
    (ptag pop : Nat) (ptok : Option token.Token) (psym : Option symtable.SymbolTable)
    (idtag idop : Nat) (itok : token.Token) (idsym : Option symtable.SymbolTable)
    (idchildren : List (Option (ast.Node symtable.SymbolTable)))
    (btag bop : Nat) (btok : Option token.Token) (blocTable : symtable.SymbolTable)
    (bc0 : Option (ast.Node symtable.SymbolTable)) (vars : ast.Node symtable.SymbolTable)
    (proc? stmt? : Option (ast.Node symtable.SymbolTable))
    (brest prest : List (Option (ast.Node symtable.SymbolTable)))
    (rest : List (Option (ast.Node symtable.SymbolTable)))
    (syms syms1 nestSyms : List symtable.SymbolTable) (c c6 c8 : GenState)
    (hput : putLastTable syms ⟨symtable.Procedure, itok.Lex⟩
        { Label := procChildLabel c, Order := 0, Val := 0, NumVars := vars.children.length }
      = some syms1)
    (hnest : generateProcedure proc? (syms1 ++ [blocTable]) (procChildPre c)
      = some (c6, nestSyms))
    (hstmt : generateStatement stmt? nestSyms (emitLabel c6 (procChildLabel c ++ "_body"))
      = some c8) :
    generateProcedureList
        (some (.mk ptag pop ptok psym
          (some (.mk idtag idop (some itok) idsym idchildren)
            :: some (.mk btag bop btok (some blocTable)
                 (bc0 :: some vars :: proc? :: stmt? :: brest))
            :: prest)) :: rest) syms c
      = generateProcedureList rest syms1
          (procChildPost c8 (procChildLabel c) vars.children.length) := by
  obtain ⟨cbuf, ccount⟩ := c
  obtain ⟨c6buf, c6count⟩ := c6
  rw [generateProcedureList.eq_def]
  simp [procChildPre, procChildLabel, emitLabel, emitStoreWord, emitSubUnsigned, emitJump,
    writeOut] at hnest
  simp only [procChildLabel] at hput
  simp [procChildLabel, emitLabel, writeOut] at hstmt
  simp [ast.Node.tok, getNewLabel, hput, hnest, hstmt, procChildLabel, procChildPost,
    emitLabel, emitStoreWord, emitSubUnsigned, emitJump, emitLoadWord, emitAddUnsigned,
    emitJumpReturn, writeOut]

end codegen

namespace codegen

/-- The static-link chase reads memory into one scratch register only: memory
and all registers other than the scratch register are untouched. -/
theorem chaseExec : ∀ (n : Nat) (m : mach.Mach),
    (mach.execs (List.replicate n (Instr.lw "$a0" "$a0" 4)) m).mem = m.mem ∧
    ∀ r, r ≠ "$a0" →
      (mach.execs (List.replicate n (Instr.lw "$a0" "$a0" 4)) m).regs r = m.regs r
  | 0, m => by simp
  | n + 1, m => by
    have ih := chaseExec n (mach.execInstr m (.lw "$a0" "$a0" 4))
    rw [List.replicate_succ]
    refine ⟨?_, fun r hr => ?_⟩
    · rw [mach.execs_cons, ih.1]
      simp [mach.execInstr]
    · rw [mach.execs_cons, ih.2 r hr]
      simp [mach.execInstr, hr]

/-- The local-initialization code lowers the stack pointer by four bytes per
local, writes only at or below the initial stack pointer, and touches no
register besides the stack pointer and the scratch register. -/
theorem localsExec : ∀ (nv : Nat) (m : mach.Mach),
    (mach.execs (localsCode nv) m).regs "$sp" = m.regs "$sp" - 4 * nv ∧
    (∀ r, r ≠ "$sp" → r ≠ "$a0" → (mach.execs (localsCode nv) m).regs r = m.regs r) ∧
    ∀ a, m.regs "$sp" < a → (mach.execs (localsCode nv) m).mem a = m.mem a
  | 0, m => by simp [localsCode]
  | nv + 1, m => by
    have step :
        mach.execs (localsCode (nv + 1)) m
          = mach.execs (localsCode nv)
              (mach.execInstr (mach.execInstr (mach.execInstr m (.li "$a0" 0))
                (.sw "$a0" "$sp" 0)) (.subu "$sp" "$sp" 4)) := by
      rw [localsCode]
      rfl
    set m1 := mach.execInstr (mach.execInstr (mach.execInstr m (.li "$a0" 0))
      (.sw "$a0" "$sp" 0)) (.subu "$sp" "$sp" 4) with hm1
    have h1sp : m1.regs "$sp" = m.regs "$sp" - 4 := by simp [hm1, mach.execInstr]
    have h1regs : ∀ r, r ≠ "$sp" → r ≠ "$a0" → m1.regs r = m.regs r := by
      intro r h1 h2
      simp [hm1, mach.execInstr, h1, h2]
    have h1mem : ∀ a, m.regs "$sp" < a → m1.mem a = m.mem a := by
      intro a ha
      have hne : a ≠ m.regs "$sp" := by omega
      simp [hm1, mach.execInstr, hne]
    have ih := localsExec nv m1
    refine ⟨?_, fun r hr1 hr2 => ?_, fun a ha => ?_⟩
    · rw [step, ih.1, h1sp]
      push_cast
      ring
    · rw [step, ih.2.1 r hr1 hr2, h1regs r hr1 hr2]
    · have ha1 : m1.regs "$sp" < a := by omega
      rw [step, ih.2.2 a ha1, h1mem a ha]

/-- Executing the procedure prologue lowers the stack pointer by one word and
writes only at the entry stack pointer. -/
theorem prologueExec (m : mach.Mach) :
    (mach.execs procPrologue m).regs "$sp" = m.regs "$sp" - 4 ∧
    (∀ r, r ≠ "$sp" → r ≠ "$ra" → (mach.execs procPrologue m).regs r = m.regs r) ∧
    ∀ a, a ≠ m.regs "$sp" → (mach.execs procPrologue m).mem a = m.mem a := by
  refine ⟨by simp [procPrologue, mach.execInstr], fun r h1 h2 => ?_, fun a ha => ?_⟩
  · simp [procPrologue, mach.execInstr, h1, h2]
  · simp [procPrologue, mach.execInstr, ha]

/-- Executing the procedure epilogue raises the stack pointer by exactly the
4 times the variable count plus 12 bytes named in the addu, and reloads the
frame pointer from the word at the resulting stack pointer. -/
theorem epilogueExec (nv : Nat) (m : mach.Mach) :
    (mach.execs (procEpilogue nv) m).regs "$sp" = m.regs "$sp" + (4 * (nv : Int) + 12) ∧
    (mach.execs (procEpilogue nv) m).regs "$fp"
      = m.mem (m.regs "$sp" + (4 * (nv : Int) + 12)) := by
  constructor
  · simp [procEpilogue, mach.execInstr]
  · simp [procEpilogue, mach.execInstr]

/-- Executing the call setup lowers the stack pointer by two link slots plus
one slot per local, stores the caller frame pointer (the dynamic link) at the
entry stack pointer, and leaves the caller frame-pointer register value
recoverable there. -/
theorem callSetupExec (n nv : Nat) (lab : String) (m : mach.Mach) :
    (mach.execs (callSetupCode n nv lab) m).regs "$sp"
      = m.regs "$sp" - (4 * (nv : Int) + 8) ∧
    (mach.execs (callSetupCode n nv lab) m).mem (m.regs "$sp") = m.regs "$fp" := by
  rw [callSetupCode]
  rw [mach.execs_append, mach.execs_append, mach.execs_append, mach.execs_append]
  set mA := mach.execs [Instr.sw "$fp" "$sp" 0, .subu "$sp" "$sp" 4, .move "$a0" "$fp"] m
    with hA
  have hAsp : mA.regs "$sp" = m.regs "$sp" - 4 := by simp [hA, mach.execs, mach.execInstr]
  have hAfp : mA.regs "$fp" = m.regs "$fp" := by simp [hA, mach.execs, mach.execInstr]
  have hAmem : ∀ a, mA.mem a = if a = m.regs "$sp" then m.regs "$fp" else m.mem a := by
    intro a
    simp [hA, mach.execs, mach.execInstr]
  set mC := mach.execs (List.replicate n (Instr.lw "$a0" "$a0" 4)) mA with hC
  have hCsp : mC.regs "$sp" = m.regs "$sp" - 4 := by
    rw [hC, (chaseExec n mA).2 "$sp" (by decide), hAsp]
  have hCfp : mC.regs "$fp" = m.regs "$fp" := by
    rw [hC, (chaseExec n mA).2 "$fp" (by decide), hAfp]
  have hCmem : ∀ a, mC.mem a = if a = m.regs "$sp" then m.regs "$fp" else m.mem a := by
    intro a
    rw [hC, (chaseExec n mA).1, hAmem]
  set mB := mach.execs [Instr.sw "$a0" "$sp" 0, .subu "$sp" "$sp" 4, .move "$fp" "$sp"] mC
    with hB
  have hBsp : mB.regs "$sp" = m.regs "$sp" - 8 := by
    simp [hB, mach.execs, mach.execInstr, hCsp]
    ring
  have hBmem : mB.mem (m.regs "$sp") = m.regs "$fp" := by
    have hne : m.regs "$sp" ≠ mC.regs "$sp" := by
      rw [hCsp]
      omega
    simp [hB, mach.execs, mach.execInstr, hne, hCmem]
  set mL := mach.execs (localsCode nv) mB with hL
  have hLsp : mL.regs "$sp" = m.regs "$sp" - (4 * (nv : Int) + 8) := by
    rw [hL, (localsExec nv mB).1, hBsp]
    ring
  have hLmem : mL.mem (m.regs "$sp") = m.regs "$fp" := by
    have : mB.regs "$sp" < m.regs "$sp" := by
      rw [hBsp]
      omega
    rw [hL, (localsExec nv mB).2.2 (m.regs "$sp") this, hBmem]
  constructor
  · simp [mach.execs, mach.execInstr, hLsp]
  · simp [mach.execs, mach.execInstr, hLmem]

end codegen

namespace codegen

/-- C3: activation-record balance.  First conjunct: a Call statement whose
target resolves at distance n to a procedure value v emits exactly the setup
code (dynamic link, static link, one zeroed slot per local, jal), which pushes
2 + NumVars words.  Second conjunct: each generated procedure pushes the
return address on entry and, after its done label, executes the epilogue
followed by jr.  Third conjunct: executing the setup, the prologue, any body
that preserves the stack pointer and the dynamic-link slot, and the epilogue
leaves the stack pointer exactly where it started and restores the caller
frame pointer from the dynamic-link slot: the 4 times NumVars plus 12 bytes
pushed equal the bytes released. -/
theorem C3_activation_record_balance :
    (∀ (itok : token.Token) (idtag idop : Nat) (idsym : Option symtable.SymbolTable)
       (idchildren : List (Option (ast.Node symtable.SymbolTable)))
       (cop : Nat) (ctok : Option token.Token) (csym : Option symtable.SymbolTable)
       (crest : List (Option (ast.Node symtable.SymbolTable)))
       (syms : List symtable.SymbolTable) (c : GenState) (n : Nat) (v : symtable.Value),
       getValueFromClosestSymbolTable ⟨symtable.Procedure, itok.Lex⟩ syms = (n, some v) →
       generateStatement
           (some (.mk ast.Call cop ctok csym
             (some (.mk idtag idop (some itok) idsym idchildren) :: crest))) syms c
         = some { c with buf := c.buf ++ callSetupCode n v.NumVars v.Label }) ∧
    (∀ (ptag pop : Nat) (ptok : Option token.Token) (psym : Option symtable.SymbolTable)
       (idtag idop : Nat) (itok : token.Token) (idsym : Option symtable.SymbolTable)
       (idchildren : List (Option (ast.Node symtable.SymbolTable)))
       (btag bop : Nat) (btok : Option token.Token) (blocTable : symtable.SymbolTable)
       (bc0 : Option (ast.Node symtable.SymbolTable)) (vars : ast.Node symtable.SymbolTable)
       (proc? stmt? : Option (ast.Node symtable.SymbolTable))
       (brest prest rest : List (Option (ast.Node symtable.SymbolTable)))
       (syms syms1 nestSyms : List symtable.SymbolTable) (c c6 c8 : GenState),
       putLastTable syms ⟨symtable.Procedure, itok.Lex⟩
           { Label := procChildLabel c, Order := 0, Val := 0,
             NumVars := vars.children.length } = some syms1 →
       generateProcedure proc? (syms1 ++ [blocTable]) (procChildPre c)
         = some (c6, nestSyms) →
       generateStatement stmt? nestSyms (emitLabel c6 (procChildLabel c ++ "_body"))
         = some c8 →
       generateProcedureList
           (some (.mk ptag pop ptok psym
             (some (.mk idtag idop (some itok) idsym idchildren)
               :: some (.mk btag bop btok (some blocTable)
                    (bc0 :: some vars :: proc? :: stmt? :: brest))
               :: prest)) :: rest) syms c
         = generateProcedureList rest syms1
             (procChildPost c8 (procChildLabel c) vars.children.length)) ∧
    (∀ (n nv : Nat) (lab : String) (m m1 m2 mb m3 : mach.Mach),
       m1 = mach.execs (callSetupCode n nv lab) m →
       m2 = mach.execs procPrologue m1 →
       mb.regs "$sp" = m2.regs "$sp" →
       mb.mem (m.regs "$sp") = m2.mem (m.regs "$sp") →
       m3 = mach.execs (procEpilogue nv) mb →
       m1.regs "$sp" = m.regs "$sp" - (4 * (nv : Int) + 8) ∧
       m2.regs "$sp" = m.regs "$sp" - (4 * (nv : Int) + 12) ∧
       m3.regs "$sp" = m.regs "$sp" ∧
       m3.regs "$fp" = m.regs "$fp") := by
  refine ⟨fun itok idtag idop idsym idchildren cop ctok csym crest syms c n v hlook =>
    generateStatement_call_emits itok idtag idop idsym idchildren cop ctok csym crest
      syms c n v hlook,
    fun ptag pop ptok psym idtag idop itok idsym idchildren btag bop btok blocTable bc0 vars
      proc? stmt? brest prest rest syms syms1 nestSyms c c6 c8 hput hnest hstmt =>
    generateProcedureList_child_eq ptag pop ptok psym idtag idop itok idsym idchildren
      btag bop btok blocTable bc0 vars proc? stmt? brest prest rest syms syms1 nestSyms
      c c6 c8 hput hnest hstmt,
    fun n nv lab m m1 m2 mb m3 hm1 hm2 hbsp hbmem hm3 => ?_⟩
  subst hm1 hm2 hm3
  have hset := callSetupExec n nv lab m
  have hpro := prologueExec (mach.execs (callSetupCode n nv lab) m)
  have h1sp := hset.1
  have h1dyn := hset.2
  have h2sp : (mach.execs procPrologue (mach.execs (callSetupCode n nv lab) m)).regs "$sp"
      = m.regs "$sp" - (4 * (nv : Int) + 12) := by
    rw [hpro.1, h1sp]
    ring
  have h2dyn : (mach.execs procPrologue (mach.execs (callSetupCode n nv lab) m)).mem
      (m.regs "$sp") = m.regs "$fp" := by
    rw [hpro.2.2 (m.regs "$sp") (by rw [h1sp]; omega), h1dyn]
  have hepi := epilogueExec nv mb
  have haddr : mb.regs "$sp" + (4 * (nv : Int) + 12) = m.regs "$sp" := by
    rw [hbsp, h2sp]
    ring
  refine ⟨h1sp, h2sp, ?_, ?_⟩
  · rw [hepi.1, haddr]
  · rw [hepi.2, haddr, hbmem, h2dyn]

end codegen

namespace codegen

/-- Procedure value registered for p in the C3 witness. -/
def c3ProcValue : symtable.Value :=
  { Label := "procedure0", Order := 0, Val := 0, NumVars := 1 }

/-- Symbol table of the C3 witness call site. -/
def c3ProcTable : symtable.SymbolTable :=
  { table := [(⟨symtable.Procedure, "p"⟩, c3ProcValue)] }

/-- The Call node of the C3 witness. -/
def c3CallNode : Option (ast.Node symtable.SymbolTable) :=
  some (.mk ast.Call 0 none none [some (.mk ast.Terminal 0 (some (identTok "p")) none [])])

/-- The variable list of the C3 witness procedure (one local). -/
def c3VarsNode : ast.Node symtable.SymbolTable :=
  .mk ast.Var 0 none none [some (.mk ast.Terminal 0 (some (identTok "x")) none [])]

/-- The procedure child of the C3 witness: one local, no nested procedures, an
empty begin body. -/
def c3ProcChild : ast.Node symtable.SymbolTable :=
  .mk ast.Procedure 0 none none
    [some (.mk ast.Terminal 0 (some (identTok "p")) none []),
     some (.mk ast.Block 0 none (some symtable.New)
       [some (.mk ast.Const 0 none none []),
        some c3VarsNode,
        some (.mk ast.ProcedureParent 0 none none []),
        some (.mk ast.Begin 0 none none [])])]

/-- Table stack after the witness procedure is registered. -/
def c3Syms1 : List symtable.SymbolTable :=
  [symtable.New.Put ⟨symtable.Procedure, "p"⟩
    { Label := procChildLabel { buf := [], count := 0 }, Order := 0, Val := 0,
      NumVars := c3VarsNode.children.length }]

/-- Generator state after the body label of the witness procedure. -/
def c3C8 : GenState :=
  emitLabel (procChildPre { buf := [], count := 0 })
    (procChildLabel { buf := [], count := 0 } ++ "_body")

theorem C3_activation_record_balance_witness :
    (getValueFromClosestSymbolTable ⟨symtable.Procedure, (identTok "p").Lex⟩ [c3ProcTable]
       = (0, some c3ProcValue) ∧
     generateStatement c3CallNode [c3ProcTable] { buf := [], count := 0 }
       = some { buf := ([] : List Instr) ++ callSetupCode 0 c3ProcValue.NumVars c3ProcValue.Label,
                count := 0 }) ∧
    (putLastTable [symtable.New] ⟨symtable.Procedure, (identTok "p").Lex⟩
        { Label := procChildLabel { buf := [], count := 0 }, Order := 0, Val := 0,
          NumVars := c3VarsNode.children.length } = some c3Syms1 ∧
     generateProcedureList [some c3ProcChild] [symtable.New] { buf := [], count := 0 }
       = generateProcedureList [] c3Syms1
           (procChildPost c3C8 (procChildLabel { buf := [], count := 0 })
             c3VarsNode.children.length)) ∧
    ((mach.execs (callSetupCode 0 1 "procedure0") mach.zeroMach).regs "$sp"
       = mach.zeroMach.regs "$sp" - (4 * (1 : Int) + 8) ∧
     (mach.execs procPrologue (mach.execs (callSetupCode 0 1 "procedure0") mach.zeroMach)).regs
         "$sp" = mach.zeroMach.regs "$sp" - (4 * (1 : Int) + 12) ∧
     (mach.execs (procEpilogue 1)
         (mach.execs procPrologue
           (mach.execs (callSetupCode 0 1 "procedure0") mach.zeroMach))).regs "$sp"
       = mach.zeroMach.regs "$sp" ∧
     (mach.execs (procEpilogue 1)
         (mach.execs procPrologue
           (mach.execs (callSetupCode 0 1 "procedure0") mach.zeroMach))).regs "$fp"
       = mach.zeroMach.regs "$fp") := by
  have hnest : generateProcedure (some (.mk ast.ProcedureParent 0 none none []))
      (c3Syms1 ++ [symtable.New]) (procChildPre { buf := [], count := 0 })
      = some (procChildPre { buf := [], count := 0 }, c3Syms1 ++ [symtable.New]) := by
    rw [generateProcedure.eq_def]
    simp [generateProcedureList]
  have hstmt : generateStatement (some (.mk ast.Begin 0 none none []))
      (c3Syms1 ++ [symtable.New]) c3C8 = some c3C8 := by
    rw [generateStatement.eq_def]
    simp [ast.Begin, ast.Assignment, ast.Call, ast.IfThen, ast.WhileDo, ast.Print,
      generateStatementList]
  refine ⟨⟨by decide, ?_⟩, ⟨by decide, ?_⟩, ?_⟩
  · exact C3_activation_record_balance.1 (identTok "p") ast.Terminal 0 none [] 0 none none []
      [c3ProcTable] { buf := [], count := 0 } 0 c3ProcValue (by decide)
  · exact C3_activation_record_balance.2.1 ast.Procedure 0 none none ast.Terminal 0
      (identTok "p") none [] ast.Block 0 none symtable.New
      (some (.mk ast.Const 0 none none [])) c3VarsNode
      (some (.mk ast.ProcedureParent 0 none none []))
      (some (.mk ast.Begin 0 none none [])) [] [] [] [symtable.New] c3Syms1
      (c3Syms1 ++ [symtable.New]) { buf := [], count := 0 }
      (procChildPre { buf := [], count := 0 }) c3C8 (by decide) hnest hstmt
  · exact C3_activation_record_balance.2.2 0 1 "procedure0" mach.zeroMach
      (mach.execs (callSetupCode 0 1 "procedure0") mach.zeroMach)
      (mach.execs procPrologue (mach.execs (callSetupCode 0 1 "procedure0") mach.zeroMach))
      (mach.execs procPrologue (mach.execs (callSetupCode 0 1 "procedure0") mach.zeroMach))
      (mach.execs (procEpilogue 1)
        (mach.execs procPrologue
          (mach.execs (callSetupCode 0 1 "procedure0") mach.zeroMach)))
      rfl rfl rfl rfl rfl

end codegen

namespace asymtable

/-- The symbol table revision used by the analyser sources: a set of
(kind tag, lexeme) pairs, modelled as a list; Put refuses replacement and Get
reports membership. -/
structure SymbolTable where
  table : List (Nat × String)
deriving DecidableEq, Repr

/-- Go symtable.New of the analyser revision. -/
def New : SymbolTable :=
  { table := [] }

/-- Go SymbolTable.Put of the analyser revision: insert unless present. -/
def SymbolTable.Put (s : SymbolTable) (tag : Nat) (lex : String) : SymbolTable :=
  if (tag, lex) ∈ s.table then s else { table := (tag, lex) :: s.table }

/-- Go SymbolTable.Get of the analyser revision: membership. -/
def SymbolTable.Get (s : SymbolTable) (tag : Nat) (lex : String) : Bool :=
  decide ((tag, lex) ∈ s.table)

end asymtable

namespace analyser

/-- Abstract syntax tree nodes as seen by the analyser: the attached tables are
of the analyser symtable revision. -/
abbrev ANode := ast.Node asymtable.SymbolTable

/-- Go findSymbolInTables: search the stack from the closest (last) table
outward for the (kind, lexeme) pair. -/
def findSymbolInTables (lex : String) (symbol : Nat)
    (syms : List asymtable.SymbolTable) : Bool :=
  syms.reverse.any fun t => t.Get symbol lex

/-- The constant loop of loadSymbolTables: register every constant name; each
Const child is an Assignment node whose first child is the identifier.
Option.none models the Go runtime panics on nil nodes and tokens. -/
def putConsts (sym : asymtable.SymbolTable) :
    List (Option ANode) → Option asymtable.SymbolTable
  | [] => some sym
  | none :: _ => none
  | some (.mk _ _ _ _ (some iden :: _)) :: rest =>
    match iden.tok with
    | none => none
    | some t => putConsts (sym.Put symtable.Constant t.Lex) rest
  | some _ :: _ => none

/-- The variable loop of loadSymbolTables: register every variable name. -/
def putVars (sym : asymtable.SymbolTable) :
    List (Option ANode) → Option asymtable.SymbolTable
  | [] => some sym
  | none :: _ => none
  | some n :: rest =>
    match n.tok with
    | none => none
    | some t => putVars (sym.Put symtable.Integer t.Lex) rest

mutual

/-- Go loadSymbolTables: build the table of a block from its constant,
variable and procedure declarations, recurse into nested procedure blocks, and
attach the table to the block node.  The in-place mutation of the tree is
modelled by returning the rebuilt node. -/
def loadSymbolTables : Nat → Option ANode → Option ANode
  | 0, _ => none
  | _ + 1, none => none
  | fuel + 1, some (.mk tag op tok _sym children) =>
    match children with
    | cons? :: vars? :: proc? :: crest =>
      match cons? with
      | none => none
      | some cons =>
        match putConsts asymtable.New cons.children with
        | none => none
        | some sym1 =>
          match vars? with
          | none => none
          | some vars =>
            match putVars sym1 vars.children with
            | none => none
            | some sym2 =>
              match proc? with
              | none => none
              | some proc =>
                match loadProcs fuel sym2 proc.children with
                | none => none
                | some (sym3, pchildren1) =>
                  match proc with
                  | .mk ptag pop ptok psym _ =>
                    some (.mk tag op tok (some sym3)
                      (cons? :: vars? :: some (.mk ptag pop ptok psym pchildren1) :: crest))
    | _ => none
termination_by fuel _ => (fuel, 0, 0)

/-- The procedure loop of loadSymbolTables: register every procedure name and
recurse into its block. -/
def loadProcs (fuel : Nat) (sym : asymtable.SymbolTable) :
    List (Option ANode) → Option (asymtable.SymbolTable × List (Option ANode))
  | [] => some (sym, [])
  | none :: _ => none
  | some (.mk ptag pop ptok psym (some iden :: bloc? :: prest)) :: rest =>
    match iden.tok with
    | none => none
    | some t =>
      let sym1 := sym.Put symtable.Procedure t.Lex
      match loadSymbolTables fuel bloc? with
      | none => none
      | some bloc1 =>
        match loadProcs fuel sym1 rest with
        | none => none
        | some (sym2, rest1) =>
          some (sym2,
            some (.mk ptag pop ptok psym (some iden :: some bloc1 :: prest)) :: rest1)
  | some _ :: _ => none
termination_by l => (fuel, 1, l.length)

end

/-- Go recurseExpressionCheck: identifiers inside expressions must resolve to
a variable or a constant in some visible table; Math-shaped nodes are checked
on their two children.  Errors are line numbers of the offending tokens. -/
def recurseExpressionCheck : Nat → Option ANode → List asymtable.SymbolTable →
    Option (List Nat)
  | 0, _, _ => none
  | _ + 1, none, _ => none
  | fuel + 1, some (.mk tag _op tok _sym children), syms =>
    if tag = ast.Terminal then
      match tok with
      | none => none
      | some t =>
        if t.Tag = token.Identifier then
          if !findSymbolInTables t.Lex symtable.Integer syms &&
              !findSymbolInTables t.Lex symtable.Constant syms then
            some [t.Ln]
          else
            some []
        else
          some []
    else
      match children with
      | left :: rest =>
        match recurseExpressionCheck fuel left syms with
        | none => none
        | some errs1 =>
          match rest with
          | right :: _ =>
            match recurseExpressionCheck fuel right syms with
            | none => none
            | some errs2 => some (errs1 ++ errs2)
          | _ => none
      | _ => none

/-- Go assignmentCheck: check the right-hand side expression, then require the
left-hand-side identifier to resolve with kind Integer. -/
def assignmentCheck (fuel : Nat) : Option ANode → List asymtable.SymbolTable →
    Option (List Nat)
  | none, _ => none
  | some (.mk _tag _op _tok _sym children), syms =>
    match children with
    | iden? :: expr? :: _ =>
      match recurseExpressionCheck fuel expr? syms with
      | none => none
      | some errs1 =>
        match iden? with
        | none => none
        | some iden =>
          match iden.tok with
          | none => none
          | some t =>
            if !findSymbolInTables t.Lex symtable.Integer syms then
              some (errs1 ++ [t.Ln])
            else
              some (errs1 ++ [])
    | _ => none

/-- Go callCheck: the call target must resolve with kind Procedure. -/
def callCheck : Option ANode → List asymtable.SymbolTable → Option (List Nat)
  | none, _ => none
  | some (.mk _tag _op _tok _sym children), syms =>
    match children with
    | iden? :: _ =>
      match iden? with
      | none => none
      | some iden =>
        match iden.tok with
        | none => none
        | some t =>
          if !findSymbolInTables t.Lex symtable.Procedure syms then
            some [t.Ln]
          else
            some []
    | _ => none

mutual

/-- Go recurseStatementCheck: dispatch on the statement kind; an unknown kind
appends a semantic error at the line of the node token (a nil token panics). -/
def recurseStatementCheck : Nat → Option ANode → List asymtable.SymbolTable →
    Option (List Nat)
  | 0, _, _ => none
  | _ + 1, none, _ => none
  | fuel + 1, some n, syms =>
    if n.tag = ast.Assignment then assignmentCheck fuel (some n) syms
    else if n.tag = ast.Call then callCheck (some n) syms
    else if n.tag = ast.Begin then stmtListCheck fuel n.children syms
    else if n.tag = ast.IfThen then ifThenCheck fuel (some n) syms
    else if n.tag = ast.WhileDo then whileDoCheck fuel (some n) syms
    else
      match n.tok with
      | none => none
      | some t => some [t.Ln]
termination_by fuel _ _ => (2 * fuel, 0)

/-- The range loop of the Begin case of recurseStatementCheck. -/
def stmtListCheck : Nat → List (Option ANode) → List asymtable.SymbolTable →
    Option (List Nat)
  | _, [], _ => some []
  | fuel, s :: rest, syms =>
    match recurseStatementCheck fuel s syms with
    | none => none
    | some errs1 =>
      match stmtListCheck fuel rest syms with
      | none => none
      | some errs2 => some (errs1 ++ errs2)
termination_by fuel l _ => (2 * fuel + 1, l.length)

/-- Go ifThenCheck: check the condition as an expression, then the branch
statement. -/
def ifThenCheck (fuel : Nat) : Option ANode → List asymtable.SymbolTable →
    Option (List Nat)
  | none, _ => none
  | some (.mk _tag _op _tok _sym children), syms =>
    match children with
    | cond :: stmt :: _ =>
      match recurseExpressionCheck fuel cond syms with
      | none => none
      | some errs1 =>
        match recurseStatementCheck fuel stmt syms with
        | none => none
        | some errs2 => some (errs1 ++ errs2)
    | _ => none
termination_by _ _ => (2 * fuel + 1, 0)

/-- Go whileDoCheck: check the condition as an expression, then the body
statement. -/
def whileDoCheck (fuel : Nat) : Option ANode → List asymtable.SymbolTable →
    Option (List Nat)
  | none, _ => none
  | some (.mk _tag _op _tok _sym children), syms =>
    match children with
    | cond :: stmt :: _ =>
      match recurseExpressionCheck fuel cond syms with
      | none => none
      | some errs1 =>
        match recurseStatementCheck fuel stmt syms with
        | none => none
        | some errs2 => some (errs1 ++ errs2)
    | _ => none
termination_by _ _ => (2 * fuel + 1, 0)

end

/-- Go recurseVarCheck: a variable declaration must not collide with a visible
constant of the same name. -/
def varListCheck : List (Option ANode) → List asymtable.SymbolTable → Option (List Nat)
  | [], _ => some []
  | none :: _, _ => none
  | some n :: rest, syms =>
    match n.tok with
    | none => none
    | some t =>
      match varListCheck rest syms with
      | none => none
      | some errs =>
        if findSymbolInTables t.Lex symtable.Constant syms then
          some ([t.Ln] ++ errs)
        else
          some ([] ++ errs)

mutual

/-- Go recurseBlockCheck: push the block table onto the stack and check the
declarations, the nested procedures and the statement. -/
def recurseBlockCheck : Nat → Option ANode → List asymtable.SymbolTable →
    Option (List Nat)
  | 0, _, _ => none
  | _ + 1, none, _ => none
  | fuel + 1, some (.mk _tag _op _tok symO children), syms =>
    match symO with
    | none => none
    | some sym =>
      let syms1 := syms ++ [sym]
      match children with
      | _cons? :: vars? :: proc? :: stmt? :: _ =>
        match vars? with
        | none => none
        | some vars =>
          match varListCheck vars.children syms1 with
          | none => none
          | some errs1 =>
            match proc? with
            | none => none
            | some proc =>
              match procListCheck fuel proc.children syms1 with
              | none => none
              | some errs2 =>
                match recurseStatementCheck fuel stmt? syms1 with
                | none => none
                | some errs3 => some (errs1 ++ errs2 ++ errs3)
      | _ => none
termination_by fuel _ _ => (2 * fuel, 0)

/-- The range loop of Go recurseProcedureCheck: the procedure name must
resolve with kind Procedure, and the procedure block is checked with the same
stack (the block itself pushes its table). -/
def procListCheck (fuel : Nat) :
    List (Option ANode) → List asymtable.SymbolTable → Option (List Nat)
  | [], _ => some []
  | none :: _, _ => none
  | some p :: rest, syms =>
    match p.children with
    | iden? :: bloc? :: _ =>
      match iden? with
      | none => none
      | some iden =>
        match iden.tok with
        | none => none
        | some t =>
          let errs0 : List Nat :=
            if !findSymbolInTables t.Lex symtable.Procedure syms then [t.Ln] else []
          match recurseBlockCheck fuel bloc? syms with
          | none => none
          | some errs1 =>
            match procListCheck fuel rest syms with
            | none => none
            | some errs2 => some (errs0 ++ errs1 ++ errs2)
    | _ => none
termination_by l _ => (2 * fuel + 1, l.length)

end

/-- Go recurseProgramCheck: check the block under the program node with an
empty stack. -/
def recurseProgramCheck (fuel : Nat) (node : ANode) : Option (List Nat) :=
  match node.children with
  | bloc? :: _ => recurseBlockCheck fuel bloc? []
  | _ => none

/-- Go Analyse, taking the parser result as input: load the symbol tables onto
the tree, run the checks, and return the annotated tree exactly when no
semantic error was recorded.  Option.none covers a nil parse, recorded
semantic errors, and the modelled runtime panics. -/
def Analyse (fuel : Nat) (parseResult : Option ANode) : Option ANode :=
  match parseResult with
  | none => none
  | some (.mk rtag rop rtok rsym rchildren) =>
    match rchildren with
    | bloc? :: crest =>
      match loadSymbolTables fuel bloc? with
      | none => none
      | some bloc1 =>
        let root1 : ANode := .mk rtag rop rtok rsym (some bloc1 :: crest)
        match recurseProgramCheck fuel root1 with
        | none => none
        | some errs => if errs = [] then some root1 else none
    | _ => none

end analyser
namespace analyser

mutual

/-- The assignment-target discipline on statements: every Assignment node in
the statement tree has a left-hand-side identifier that resolves with kind
Integer (a variable) in the visible symbol-table stack.  Call statements bind
no assignment target; Begin, IfThen and WhileDo recurse into their nested
statements. -/
inductive StmtTargetsOk : List asymtable.SymbolTable → Option ANode → Prop where
  | assign (syms : List asymtable.SymbolTable) (op : Nat) (tok : Option token.Token)
      (symO : Option asymtable.SymbolTable) (iden : ANode)
      (crest : List (Option ANode)) (t : token.Token) :
      iden.tok = some t →
      findSymbolInTables t.Lex symtable.Integer syms = true →
      StmtTargetsOk syms (some (.mk ast.Assignment op tok symO (some iden :: crest)))
  | call (syms : List asymtable.SymbolTable) (op : Nat) (tok : Option token.Token)
      (symO : Option asymtable.SymbolTable) (children : List (Option ANode)) :
      StmtTargetsOk syms (some (.mk ast.Call op tok symO children))
  | beginCase (syms : List asymtable.SymbolTable) (op : Nat) (tok : Option token.Token)
      (symO : Option asymtable.SymbolTable) (children : List (Option ANode)) :
      StmtsTargetsOk syms children →
      StmtTargetsOk syms (some (.mk ast.Begin op tok symO children))
  | ifThen (syms : List asymtable.SymbolTable) (op : Nat) (tok : Option token.Token)
      (symO : Option asymtable.SymbolTable) (cond stmt : Option ANode)
      (crest : List (Option ANode)) :
      StmtTargetsOk syms stmt →
      StmtTargetsOk syms (some (.mk ast.IfThen op tok symO (cond :: stmt :: crest)))
  | whileDo (syms : List asymtable.SymbolTable) (op : Nat) (tok : Option token.Token)
      (symO : Option asymtable.SymbolTable) (cond stmt : Option ANode)
      (crest : List (Option ANode)) :
      StmtTargetsOk syms stmt →
      StmtTargetsOk syms (some (.mk ast.WhileDo op tok symO (cond :: stmt :: crest)))

/-- The assignment-target discipline on a list of statements. -/
inductive StmtsTargetsOk : List asymtable.SymbolTable → List (Option ANode) → Prop where
  | nil (syms : List asymtable.SymbolTable) : StmtsTargetsOk syms []
  | cons (syms : List asymtable.SymbolTable) (s : Option ANode)
      (rest : List (Option ANode)) :
      StmtTargetsOk syms s → StmtsTargetsOk syms rest →
      StmtsTargetsOk syms (s :: rest)

end

mutual

/-- The assignment-target discipline on a block: with the block's own table
pushed onto the stack, the nested procedures and the statement satisfy the
discipline. -/
inductive BlockTargetsOk : List asymtable.SymbolTable → Option ANode → Prop where
  | mk (syms : List asymtable.SymbolTable) (tag op : Nat) (tok : Option token.Token)
      (sym : asymtable.SymbolTable) (cons? vars? : Option ANode) (proc : ANode)
      (stmt? : Option ANode) (crest : List (Option ANode)) :
      ProcsTargetsOk (syms ++ [sym]) proc.children →
      StmtTargetsOk (syms ++ [sym]) stmt? →
      BlockTargetsOk syms
        (some (.mk tag op tok (some sym) (cons? :: vars? :: some proc :: stmt? :: crest)))

/-- The assignment-target discipline on a list of procedure nodes: each
procedure body block satisfies the discipline under the same stack. -/
inductive ProcsTargetsOk : List asymtable.SymbolTable → List (Option ANode) → Prop where
  | nil (syms : List asymtable.SymbolTable) : ProcsTargetsOk syms []
  | cons (syms : List asymtable.SymbolTable) (ptag pop : Nat) (ptok : Option token.Token)
      (psym : Option asymtable.SymbolTable) (iden bloc? : Option ANode)
      (prest rest : List (Option ANode)) :
      BlockTargetsOk syms bloc? →
      ProcsTargetsOk syms rest →
      ProcsTargetsOk syms (some (.mk ptag pop ptok psym (iden :: bloc? :: prest)) :: rest)

end

/-- The assignment-target discipline on a whole program: the block under the
program node satisfies the discipline starting from the empty stack. -/
def ProgramTargetsOk (root : ANode) : Prop :=
  match root.children with
  | bloc? :: _ => BlockTargetsOk [] bloc?
  | _ => False

/-- A statement list accepted by stmtListCheck with no recorded error
satisfies the assignment-target discipline, given that single accepted
statements do. -/
lemma stmtListCheck_sound (fuel : Nat)
    (IH : ∀ s syms, recurseStatementCheck fuel s syms = some [] → StmtTargetsOk syms s) :
    ∀ l syms, stmtListCheck fuel l syms = some [] → StmtsTargetsOk syms l := by
  intro l
  induction l with
  | nil => intro syms _; exact .nil syms
  | cons s rest ih =>
    intro syms h
    rw [stmtListCheck] at h
    cases h1 : recurseStatementCheck fuel s syms with
    | none => rw [h1] at h; simp at h
    | some errs1 =>
      rw [h1] at h
      cases h2 : stmtListCheck fuel rest syms with
      | none => rw [h2] at h; simp at h
      | some errs2 =>
        rw [h2] at h
        simp only [Option.some.injEq] at h
        obtain ⟨he1, he2⟩ := List.append_eq_nil.mp h
        subst he1; subst he2
        exact .cons syms s rest (IH s syms h1) (ih syms h2)

/-- A statement accepted by recurseStatementCheck with no recorded error
satisfies the assignment-target discipline. -/
lemma recurseStatementCheck_sound :
    ∀ fuel s syms, recurseStatementCheck fuel s syms = some [] → StmtTargetsOk syms s := by
  intro fuel
  induction fuel with
  | zero => intro s syms h; rw [recurseStatementCheck] at h; simp at h
  | succ fuel ih =>
    intro s syms h
    match s with
    | none => rw [recurseStatementCheck] at h; simp at h
    | some n =>
      obtain ⟨tag, op, tok, symO, children⟩ := n
      rw [recurseStatementCheck] at h
      simp only [ast.Node.tag] at h
      by_cases hA : tag = ast.Assignment
      · subst hA
        simp only [if_pos rfl] at h
        simp only [assignmentCheck] at h
        cases children with
        | nil => simp at h
        | cons iden? rest =>
          cases rest with
          | nil => simp at h
          | cons expr? crest =>
            simp only [] at h
            cases h1 : recurseExpressionCheck fuel expr? syms with
            | none => rw [h1] at h; simp at h
            | some errs1 =>
              rw [h1] at h
              cases iden? with
              | none => simp at h
              | some iden =>
                cases h2 : iden.tok with
                | none => simp [h2] at h
                | some t =>
                  simp only [h2] at h
                  cases hf : findSymbolInTables t.Lex symtable.Integer syms with
                  | false => simp [hf] at h
                  | true =>
                    exact .assign syms op tok symO iden (expr? :: crest) t h2 hf
      · rw [if_neg hA] at h
        by_cases hC : tag = ast.Call
        · subst hC
          simp only [if_pos rfl] at h
          exact .call syms op tok symO children
        · rw [if_neg hC] at h
          by_cases hB : tag = ast.Begin
          · subst hB
            simp only [if_pos rfl, ast.Node.children] at h
            exact .beginCase syms op tok symO children
              (stmtListCheck_sound fuel ih children syms h)
          · rw [if_neg hB] at h
            by_cases hI : tag = ast.IfThen
            · subst hI
              simp only [if_pos rfl] at h
              cases children with
              | nil => simp [ifThenCheck] at h
              | cons cond rest =>
                cases rest with
                | nil => simp [ifThenCheck] at h
                | cons stmt crest =>
                  rw [ifThenCheck] at h
                  cases h1 : recurseExpressionCheck fuel cond syms with
                  | none => rw [h1] at h; simp at h
                  | some errs1 =>
                    rw [h1] at h
                    cases h2 : recurseStatementCheck fuel stmt syms with
                    | none => rw [h2] at h; simp at h
                    | some errs2 =>
                      rw [h2] at h
                      simp only [if_true, Option.some.injEq] at h
                      obtain ⟨he1, he2⟩ := List.append_eq_nil.mp h
                      subst he2
                      exact .ifThen syms op tok symO cond stmt crest (ih stmt syms h2)
            · rw [if_neg hI] at h
              by_cases hW : tag = ast.WhileDo
              · subst hW
                simp only [if_pos rfl] at h
                cases children with
                | nil => simp [whileDoCheck] at h
                | cons cond rest =>
                  cases rest with
                  | nil => simp [whileDoCheck] at h
                  | cons stmt crest =>
                    rw [whileDoCheck] at h
                    cases h1 : recurseExpressionCheck fuel cond syms with
                    | none => rw [h1] at h; simp at h
                    | some errs1 =>
                      rw [h1] at h
                      cases h2 : recurseStatementCheck fuel stmt syms with
                      | none => rw [h2] at h; simp at h
                      | some errs2 =>
                        rw [h2] at h
                        simp only [if_true, Option.some.injEq] at h
                        obtain ⟨he1, he2⟩ := List.append_eq_nil.mp h
                        subst he2
                        exact .whileDo syms op tok symO cond stmt crest (ih stmt syms h2)
              · rw [if_neg hW, ast.Node.tok] at h
                cases tok with
                | none => simp at h
                | some t => simp at h

end analyser
namespace analyser

/-- A procedure list accepted by procListCheck with no recorded error
satisfies the assignment-target discipline, given that accepted blocks do. -/
lemma procListCheck_sound (fuel : Nat)
    (IH : ∀ b syms, recurseBlockCheck fuel b syms = some [] → BlockTargetsOk syms b) :
    ∀ l syms, procListCheck fuel l syms = some [] → ProcsTargetsOk syms l := by
  intro l
  induction l with
  | nil => intro syms _; exact .nil syms
  | cons p? rest ih =>
    intro syms h
    cases p? with
    | none => rw [procListCheck] at h; simp at h
    | some p =>
      obtain ⟨ptag, pop, ptok, psym, pchildren⟩ := p
      cases pchildren with
      | nil => simp [procListCheck, ast.Node.children] at h
      | cons iden? prest0 =>
        cases prest0 with
        | nil => simp [procListCheck, ast.Node.children] at h
        | cons bloc? prest =>
          rw [procListCheck] at h
          simp only [ast.Node.children] at h
          cases iden? with
          | none => simp at h
          | some iden =>
            cases h2 : iden.tok with
            | none => simp [h2] at h
            | some t =>
              simp only [h2] at h
              cases h3 : recurseBlockCheck fuel bloc? syms with
              | none => rw [h3] at h; simp at h
              | some errs1 =>
                rw [h3] at h
                cases h4 : procListCheck fuel rest syms with
                | none => rw [h4] at h; simp at h
                | some errs2 =>
                  rw [h4] at h
                  simp only [Option.some.injEq] at h
                  have h5 := List.append_eq_nil.mp h
                  obtain ⟨he0, he1⟩ := List.append_eq_nil.mp h5.1
                  have he2 := h5.2
                  subst he1; subst he2
                  exact .cons syms ptag pop ptok psym (some iden) bloc? prest rest
                    (IH bloc? syms h3) (ih syms h4)

/-- A block accepted by recurseBlockCheck with no recorded error satisfies
the assignment-target discipline. -/
lemma recurseBlockCheck_sound :
    ∀ fuel b syms, recurseBlockCheck fuel b syms = some [] → BlockTargetsOk syms b := by
  intro fuel
  induction fuel with
  | zero => intro b syms h; rw [recurseBlockCheck.eq_def] at h; simp at h
  | succ fuel ih =>
    intro b syms h
    match b with
    | none => rw [recurseBlockCheck.eq_def] at h; simp at h
    | some n =>
      obtain ⟨tag, op, tok, symO, children⟩ := n
      rw [recurseBlockCheck.eq_def] at h
      simp only [] at h
      cases symO with
      | none => simp at h
      | some sym =>
        simp only [] at h
        cases children with
        | nil => simp at h
        | cons cons? rest1 =>
          cases rest1 with
          | nil => simp at h
          | cons vars? rest2 =>
            cases rest2 with
            | nil => simp at h
            | cons proc? rest3 =>
              cases rest3 with
              | nil => simp at h
              | cons stmt? crest =>
                simp only [] at h
                cases vars? with
                | none => simp at h
                | some vars =>
                  cases h1 : varListCheck vars.children (syms ++ [sym]) with
                  | none => simp [h1] at h
                  | some errs1 =>
                    simp only [h1] at h
                    cases proc? with
                    | none => simp at h
                    | some proc =>
                      cases h2 : procListCheck fuel proc.children (syms ++ [sym]) with
                      | none => simp [h2] at h
                      | some errs2 =>
                        simp only [h2] at h
                        cases h3 : recurseStatementCheck fuel stmt? (syms ++ [sym]) with
                        | none => simp [h3] at h
                        | some errs3 =>
                          simp only [h3, Option.some.injEq] at h
                          have h4 := List.append_eq_nil.mp h
                          have h5 := List.append_eq_nil.mp h4.1
                          exact .mk syms tag op tok sym cons? (some vars) proc stmt? crest
                            (procListCheck_sound fuel ih proc.children (syms ++ [sym])
                              (h5.2 ▸ h2))
                            (recurseStatementCheck_sound fuel stmt? (syms ++ [sym])
                              (h4.2 ▸ h3))

/-- C5.  Assignment target kind: every program accepted by Analyse (non-nil
result) satisfies the assignment-target discipline - the left-hand-side
identifier of every assignment statement resolves with kind Integer (a
variable) in the symbol-table stack visible at that statement, which is the
only way an identifier resolves to anything other than a constant or a
procedure in the per-kind lookup; contrapositively, a program in which some
assignment target does not resolve as a variable records a semantic error
and Analyse rejects it (returns none). -/
theorem C5_assignment_target_kind (fuel : Nat) (pr : Option ANode) (astOut : ANode)
    (h : Analyse fuel pr = some astOut) : ProgramTargetsOk astOut := by
  match pr with
  | none => simp [Analyse] at h
  | some (.mk rtag rop rtok rsym rchildren) =>
    simp only [Analyse] at h
    cases rchildren with
    | nil => simp at h
    | cons bloc? crest =>
      simp only [] at h
      cases h1 : loadSymbolTables fuel bloc? with
      | none => simp [h1] at h
      | some bloc1 =>
        simp only [h1] at h
        cases h2 : recurseProgramCheck fuel (.mk rtag rop rtok rsym (some bloc1 :: crest)) with
        | none => simp [h2] at h
        | some errs =>
          simp only [h2] at h
          by_cases he : errs = []
          · subst he
            simp only [if_pos rfl, if_true, Option.some.injEq] at h
            subst h
            simp only [recurseProgramCheck, ast.Node.children] at h2
            simpa only [ProgramTargetsOk, ast.Node.children] using
              recurseBlockCheck_sound fuel (some bloc1) [] h2
          · rw [if_neg he] at h
            simp at h

def c5XTok : token.Token :=
  { Tag := token.Identifier, Val := 0, Ln := 1, Lex := "x", Err := .none }

def c5ThreeTok : token.Token :=
  { Tag := token.Integer, Val := 3, Ln := 1, Lex := "", Err := .none }

def c5TermX : ANode := .mk ast.Terminal 0 (some c5XTok) none []

def c5Term3 : ANode := .mk ast.Terminal 0 (some c5ThreeTok) none []

/-- The parse tree of the program VAR x; x := 3. -/
def c5Prog : Option ANode :=
  some (.mk ast.Program 0 none none
    [some (.mk ast.Block 0 none none
      [some (.mk ast.Const 0 none none []),
       some (.mk ast.Var 0 none none [some c5TermX]),
       some (.mk ast.ProcedureParent 0 none none []),
       some (.mk ast.Assignment 0 none none [some c5TermX, some c5Term3])])])

/-- The annotated tree Analyse produces for c5Prog: the block carries the
table registering x as a variable. -/
def c5Out : ANode :=
  .mk ast.Program 0 none none
    [some (.mk ast.Block 0 none (some { table := [(symtable.Integer, "x")] })
      [some (.mk ast.Const 0 none none []),
       some (.mk ast.Var 0 none none [some c5TermX]),
       some (.mk ast.ProcedureParent 0 none none []),
       some (.mk ast.Assignment 0 none none [some c5TermX, some c5Term3])])]

/-- C5, witness: the analyser accepts VAR x; x := 3. and the accepted tree
satisfies the assignment-target discipline. -/
theorem C5_assignment_target_kind_witness :
    Analyse 5 c5Prog = some c5Out ∧ ProgramTargetsOk c5Out :=
  have h : Analyse 5 c5Prog = some c5Out := by
    simp [Analyse, c5Prog, c5Out, loadSymbolTables, loadProcs, putConsts, putVars,
      recurseProgramCheck, recurseBlockCheck, procListCheck, varListCheck,
      recurseStatementCheck, stmtListCheck, assignmentCheck, recurseExpressionCheck,
      findSymbolInTables, asymtable.SymbolTable.Get, asymtable.SymbolTable.Put,
      asymtable.New, c5TermX, c5Term3, c5XTok, c5ThreeTok, ast.Terminal, ast.Assignment,
      ast.Block, ast.Program, ast.Const, ast.Var, ast.ProcedureParent,
      symtable.Integer, symtable.Constant, symtable.Procedure,
      token.Identifier, token.Integer, ast.Node.tag, ast.Node.tok, ast.Node.children]
  ⟨h, C5_assignment_target_kind 5 c5Prog c5Out h⟩

end analyser
namespace parser

/-- Parser nodes: in this pipeline the tree carries the analyser symtable
revision as its table type. -/
abbrev PNode := ast.Node asymtable.SymbolTable

/-- Go Parser struct: the peek token, the remaining token stream, and the
recorded syntax errors.  The lexer field is modelled as the list of tokens the
lexer will deliver; an exhausted stream keeps delivering the EOF sentinel, as
the Go lexer does at the end of the input.  An error value is modelled by the
line number it carries ("Syntax error near line %d."). -/
structure Parser where
  rest : List token.Token
  peek : token.Token
  err : List Nat
deriving DecidableEq, Repr

/-- Go Parser.move: pull the next token from the stream into peek. -/
def move (p : Parser) : Parser :=
  match p.rest with
  | t :: ts => { p with peek := t, rest := ts }
  | [] => { p with peek := token.EOF, rest := [] }

/-- Go parser.New: initialise the error slice and prime the peek token. -/
def New (toks : List token.Token) : Parser :=
  move { rest := toks, peek := token.EOF, err := [] }

/-- Go Parser.appendError: record a syntax error at the line number of the
peek token. -/
def appendError (p : Parser) : Parser :=
  { p with err := p.err ++ [p.peek.Ln] }

/-- Go Parser.accept: on a tag match move the stream forward and report true;
otherwise leave the state unchanged and report false. -/
def accept (t : Nat) (p : Parser) : Bool × Parser :=
  if p.peek.Tag = t then (true, move p) else (false, p)

/-- Go Parser.expect: accept, and on a mismatch move the token stream forward
one token and record a syntax error (at the line of the token that became
peek after the move). -/
def expect (t : Nat) (p : Parser) : Bool × Parser :=
  match accept t p with
  | (true, p1) => (true, p1)
  | (false, p1) => (false, appendError (move p1))

/-- Go Parser.compareLookahead: does any of the tags match the peek token. -/
def compareLookahead (p : Parser) (ts : List Nat) : Bool :=
  ts.any fun t => t = p.peek.Tag

/-- Go Parser.getTerminalNodeFromLookahead: a terminal node for the peek
token when it is an identifier or an integer, nil otherwise. -/
def getTerminalNodeFromLookahead (p : Parser) : Option PNode :=
  if p.peek.Tag = token.Identifier || p.peek.Tag = token.Integer then
    some (ast.NewTerminalNode p.peek)
  else
    none

/-- The declaration loop of Go parseConst.  Fuel bounds the number of loop
iterations; none means the fuel ran out. -/
def constLoop : Nat → PNode → Parser → Option (PNode × Parser)
  | 0, _, _ => none
  | fuel + 1, cons, p =>
    let iden := getTerminalNodeFromLookahead p
    let (_, p1) := expect token.Identifier p
    let (_, p2) := expect token.Equals p1
    let inte := getTerminalNodeFromLookahead p2
    let (_, p3) := expect token.Integer p2
    let cons1 := cons.appendNode [some (ast.NewAssignmentNode iden inte)]
    match accept token.Comma p3 with
    | (true, p4) => constLoop fuel cons1 p4
    | (false, p4) => some (cons1, p4)

/-- Go parseConst. -/
def parseConst (fuel : Nat) (p : Parser) : Option (Option PNode × Parser) :=
  let cons : PNode := ast.NewConstNode
  match accept token.Const p with
  | (false, p1) => some (some cons, p1)
  | (true, p1) =>
    match constLoop fuel cons p1 with
    | none => none
    | some (cons1, p2) =>
      let (_, p3) := expect token.Semicolon p2
      some (some cons1, p3)

/-- The declaration loop of Go parseVar. -/
def varLoop : Nat → PNode → Parser → Option (PNode × Parser)
  | 0, _, _ => none
  | fuel + 1, vars, p =>
    let iden := getTerminalNodeFromLookahead p
    let (_, p1) := expect token.Identifier p
    let vars1 := vars.appendNode [iden]
    match accept token.Comma p1 with
    | (true, p2) => varLoop fuel vars1 p2
    | (false, p2) => some (vars1, p2)

/-- Go parseVar. -/
def parseVar (fuel : Nat) (p : Parser) : Option (Option PNode × Parser) :=
  let vars : PNode := ast.NewVarNode
  match accept token.Var p with
  | (false, p1) => some (some vars, p1)
  | (true, p1) =>
    match varLoop fuel vars p1 with
    | none => none
    | some (vars1, p2) =>
      let (_, p3) := expect token.Semicolon p2
      some (some vars1, p3)

mutual

/-- Go parseExpression: an optional sign, a term, then a chained additive tail. -/
def parseExpression : Nat → Parser → Option (Option PNode × Parser)
  | 0, _ => none
  | fuel + 1, p =>
    match accept token.Minus p with
    | (true, p1) =>
      match parseTerm fuel p1 with
      | none => none
      | some (t, p2) =>
        exprLoop fuel
          (some (ast.NewMathNode token.Minus
            (some (ast.NewTerminalNode
              { Tag := token.Integer, Val := 0, Ln := 0, Lex := "", Err := .none })) t))
          p2
    | (false, p1) =>
      let (_, p2) := accept token.Plus p1
      match parseTerm fuel p2 with
      | none => none
      | some (t, p3) => exprLoop fuel t p3
termination_by fuel _ => fuel

/-- The additive-chain loop of Go parseExpression. -/
def exprLoop : Nat → Option PNode → Parser → Option (Option PNode × Parser)
  | 0, _, _ => none
  | fuel + 1, term, p =>
    match accept token.Plus p with
    | (true, p1) =>
      match parseTerm fuel p1 with
      | none => none
      | some (second, p2) =>
        exprLoop fuel (some (ast.NewMathNode token.Plus term second)) p2
    | (false, _) =>
      match accept token.Minus p with
      | (true, p1) =>
        match parseTerm fuel p1 with
        | none => none
        | some (second, p2) =>
          exprLoop fuel (some (ast.NewMathNode token.Minus term second)) p2
      | (false, p1) => some (term, p1)
termination_by fuel _ _ => fuel

/-- Go parseTerm: a factor then a multiplicative tail. -/
def parseTerm : Nat → Parser → Option (Option PNode × Parser)
  | 0, _ => none
  | fuel + 1, p =>
    match parseFactor fuel p with
    | none => none
    | some (fact, p1) => termLoop fuel fact p1
termination_by fuel _ => fuel

/-- The multiplicative-chain loop of Go parseTerm. -/
def termLoop : Nat → Option PNode → Parser → Option (Option PNode × Parser)
  | 0, _, _ => none
  | fuel + 1, fact, p =>
    match accept token.Times p with
    | (true, p1) =>
      match parseFactor fuel p1 with
      | none => none
      | some (second, p2) =>
        termLoop fuel (some (ast.NewMathNode token.Times fact second)) p2
    | (false, _) =>
      match accept token.Divide p with
      | (true, p1) =>
        match parseFactor fuel p1 with
        | none => none
        | some (second, p2) =>
          termLoop fuel (some (ast.NewMathNode token.Divide fact second)) p2
      | (false, p1) => some (fact, p1)
termination_by fuel _ _ => fuel

/-- Go parseFactor: an identifier or integer terminal, or a parenthesised
expression; nil when none of those. -/
def parseFactor : Nat → Parser → Option (Option PNode × Parser)
  | 0, _ => none
  | fuel + 1, p =>
    let iden := getTerminalNodeFromLookahead p
    match accept token.Identifier p with
    | (true, p1) => some (iden, p1)
    | (false, _) =>
      match accept token.Integer p with
      | (true, p1) => some (iden, p1)
      | (false, _) =>
        match accept token.LeftParen p with
        | (true, p1) =>
          match parseExpression fuel p1 with
          | none => none
          | some (expr, p2) =>
            let (_, p3) := expect token.RightParen p2
            some (expr, p3)
        | (false, p1) => some (none, p1)
termination_by fuel _ => fuel

end

/-- The shared tail of Go parseCondition: the right-hand expression and the
Cond node. -/
def condTail (fuel : Nat) (op : Nat) (left : Option PNode) (p : Parser) :
    Option (Option PNode × Parser) :=
  match parseExpression fuel p with
  | none => none
  | some (right, p1) => some (some (ast.NewCondNode op left right), p1)

/-- Go parseCondition: ODD, or two expressions joined by a comparison
operator; the operator defaults to greater-than-or-equal, and the final arm
uses expect, so a missing operator consumes a token and records an error. -/
def parseCondition (fuel : Nat) (p : Parser) : Option (Option PNode × Parser) :=
  match accept token.Odd p with
  | (true, p1) =>
    match parseExpression fuel p1 with
    | none => none
    | some (expr, p2) => some (some (ast.NewOddNode expr), p2)
  | (false, _) =>
    match parseExpression fuel p with
    | none => none
    | some (left, p1) =>
      match accept token.Equals p1 with
      | (true, p2) => condTail fuel token.Equals left p2
      | (false, _) =>
        match accept token.NotEquals p1 with
        | (true, p2) => condTail fuel token.NotEquals left p2
        | (false, _) =>
          match accept token.LessThan p1 with
          | (true, p2) => condTail fuel token.LessThan left p2
          | (false, _) =>
            match accept token.GreaterThan p1 with
            | (true, p2) => condTail fuel token.GreaterThan left p2
            | (false, _) =>
              match accept token.LessThanEqualTo p1 with
              | (true, p2) => condTail fuel token.LessThanEqualTo left p2
              | (false, _) =>
                let (_, p2) := expect token.GreaterThanEqualTo p1
                condTail fuel token.GreaterThanEqualTo left p2

mutual

/-- Go parseStatement: assignment, call, begin/end, if/then, while/do or
print; otherwise record a syntax error and return nil. -/
def parseStatement : Nat → Parser → Option (Option PNode × Parser)
  | 0, _ => none
  | fuel + 1, p =>
    let iden := getTerminalNodeFromLookahead p
    match accept token.Identifier p with
    | (true, p1) =>
      let (_, p2) := expect token.Assignment p1
      match parseExpression fuel p2 with
      | none => none
      | some (expr, p3) => some (some (ast.NewAssignmentNode iden expr), p3)
    | (false, _) =>
      match accept token.Call p with
      | (true, p1) =>
        let iden2 := getTerminalNodeFromLookahead p1
        let (_, p2) := expect token.Identifier p1
        some (some (ast.NewCallNode iden2), p2)
      | (false, _) =>
        match accept token.Begin p with
        | (true, p1) =>
          match beginLoop fuel ast.NewBeginNode p1 with
          | none => none
          | some (begin1, p2) =>
            let (_, p3) := expect token.End p2
            some (some begin1, p3)
        | (false, _) =>
          match accept token.If p with
          | (true, p1) =>
            match parseCondition fuel p1 with
            | none => none
            | some (cond, p2) =>
              let (_, p3) := expect token.Then p2
              match parseStatement fuel p3 with
              | none => none
              | some (stmt, p4) => some (some (ast.NewIfThenNode cond stmt), p4)
          | (false, _) =>
            match accept token.While p with
            | (true, p1) =>
              match parseCondition fuel p1 with
              | none => none
              | some (cond, p2) =>
                let (_, p3) := expect token.Do p2
                match parseStatement fuel p3 with
                | none => none
                | some (stmt, p4) => some (some (ast.NewWhileDoNode cond stmt), p4)
            | (false, _) =>
              match accept token.Exclamation p with
              | (true, p1) =>
                match parseExpression fuel p1 with
                | none => none
                | some (expr, p2) => some (some (ast.NewPrintNode expr), p2)
              | (false, p1) => some (none, appendError p1)
termination_by fuel _ => fuel

/-- The statement-list loop of the Begin case of Go parseStatement. -/
def beginLoop : Nat → PNode → Parser → Option (PNode × Parser)
  | 0, _, _ => none
  | fuel + 1, begin0, p =>
    match parseStatement fuel p with
    | none => none
    | some (stmt, p1) =>
      let begin1 := begin0.appendNode [stmt]
      let (_, p2) := expect token.Semicolon p1
      if compareLookahead p2 [token.Identifier, token.Call, token.Begin,
          token.If, token.While, token.Exclamation] then
        beginLoop fuel begin1 p2
      else
        some (begin1, p2)
termination_by fuel _ _ => fuel

end

mutual

/-- Go parseBlock: constants, variables, procedures, then the statement. -/
def parseBlock : Nat → Parser → Option (Option PNode × Parser)
  | 0, _ => none
  | fuel + 1, p =>
    match parseConst fuel p with
    | none => none
    | some (cons, p1) =>
      match parseVar fuel p1 with
      | none => none
      | some (vars, p2) =>
        match parseProcedure fuel p2 with
        | none => none
        | some (proc, p3) =>
          match parseStatement fuel p3 with
          | none => none
          | some (stmt, p4) => some (some (ast.NewBlockNode cons vars proc stmt), p4)
termination_by fuel _ => fuel

/-- Go parseProcedure. -/
def parseProcedure : Nat → Parser → Option (Option PNode × Parser)
  | 0, _ => none
  | fuel + 1, p =>
    let proc : PNode := ast.NewProcedureParentNode
    match accept token.Procedure p with
    | (false, p1) => some (some proc, p1)
    | (true, p1) =>
      match procLoop fuel proc p1 with
      | none => none
      | some (proc1, p2) => some (some proc1, p2)
termination_by fuel _ => fuel

/-- The procedure loop of Go parseProcedure. -/
def procLoop : Nat → PNode → Parser → Option (PNode × Parser)
  | 0, _, _ => none
  | fuel + 1, proc, p =>
    let iden := getTerminalNodeFromLookahead p
    let (_, p1) := expect token.Identifier p
    let (_, p2) := expect token.Semicolon p1
    match parseBlock fuel p2 with
    | none => none
    | some (bloc, p3) =>
      let (_, p4) := expect token.Semicolon p3
      let proc1 := proc.appendNode [some (ast.NewProcedureNode iden bloc)]
      match accept token.Procedure p4 with
      | (true, p5) => procLoop fuel proc1 p5
      | (false, p5) => some (proc1, p5)
termination_by fuel _ _ => fuel

end

/-- Go Parse up to its error check: parse a block from a fresh parser over the
token stream, expect the closing Period, and return the block together with
the final parser state. -/
def parseDriver (fuel : Nat) (toks : List token.Token) :
    Option (Option PNode × Parser) :=
  match parseBlock fuel (New toks) with
  | none => none
  | some (block, p1) =>
    let (_, p2) := expect token.Period p1
    some (block, p2)

/-- Go Parse: the Program node when no syntax error was recorded; otherwise
nil, with the printed first error modelled as the returned line number. -/
def Parse (fuel : Nat) (toks : List token.Token) :
    Option (Option PNode × Option Nat) :=
  match parseDriver fuel toks with
  | none => none
  | some (block, p2) =>
    match p2.err with
    | [] => some (some (ast.NewProgramNode block), none)
    | e :: _ => some (none, some e)

end parser
namespace parser

/-- move leaves the recorded errors untouched. -/
lemma move_err (p : Parser) : (move p).err = p.err := by
  cases h : p.rest <;> simp [move, h]

/-- move takes the head of the stream into peek and keeps the tail. -/
lemma move_rest (p : Parser) : (move p).rest = p.rest.tail := by
  cases h : p.rest <;> simp [move, h]

/-- C9.  Parse returns the Program node exactly when no syntax error was
recorded: with the final parser state after the block and the closing Period,
an empty error list yields the Program node over the parsed block, and a
nonempty error list yields nil together with the first recorded error (the
printed one).  The expect primitive, on a lookahead mismatch, advances the
token stream by exactly one token (the resulting state is appendError of the
moved state: peek and rest are those of the once-moved parser) and records
exactly one syntax error, carrying the line number of the token that is
current after the advance. -/
theorem C9_parse_error_discipline (fuel : Nat) (toks : List token.Token)
    (block : Option PNode) (p2 : Parser)
    (hdrive : parseDriver fuel toks = some (block, p2)) :
    (p2.err = [] → Parse fuel toks = some (some (ast.NewProgramNode block), none)) ∧
    (∀ e erest, p2.err = e :: erest → Parse fuel toks = some (none, some e)) ∧
    (∀ (t : Nat) (q : Parser), q.peek.Tag ≠ t →
      expect t q = (false, appendError (move q)) ∧
      (expect t q).2.err = q.err ++ [(move q).peek.Ln] ∧
      (expect t q).2.rest = q.rest.tail ∧
      (expect t q).2.peek = (move q).peek) := by
  refine ⟨?_, ?_, ?_⟩
  · intro he
    simp only [Parse, hdrive, he]
  · intro e erest he
    simp only [Parse, hdrive, he]
  · intro t q hne
    have hexp : expect t q = (false, appendError (move q)) := by
      simp [expect, accept, hne]
    refine ⟨hexp, ?_, ?_, ?_⟩
    · rw [hexp]
      simp [appendError, move_err]
    · rw [hexp]
      simp [appendError, move_rest]
    · rw [hexp]
      simp [appendError]

def c9XTok : token.Token :=
  { Tag := token.Identifier, Val := 0, Ln := 1, Lex := "x", Err := .none }

def c9AsgTok : token.Token :=
  { Tag := token.Assignment, Val := 0, Ln := 1, Lex := "", Err := .none }

def c9ThreeTok : token.Token :=
  { Tag := token.Integer, Val := 3, Ln := 1, Lex := "", Err := .none }

def c9PeriodTok : token.Token :=
  { Tag := token.Period, Val := 0, Ln := 1, Lex := "", Err := .none }

/-- The token stream of the program x := 3. -/
def c9Toks : List token.Token := [c9XTok, c9AsgTok, c9ThreeTok, c9PeriodTok]

/-- The block node the parser builds for c9Toks. -/
def c9Block : Option PNode :=
  some (.mk ast.Block 0 none none
    [some (.mk ast.Const 0 none none []),
     some (.mk ast.Var 0 none none []),
     some (.mk ast.ProcedureParent 0 none none []),
     some (.mk ast.Assignment 0 none none
       [some (.mk ast.Terminal 0 (some c9XTok) none []),
        some (.mk ast.Terminal 0 (some c9ThreeTok) none [])])])

/-- The final parser state after parsing c9Toks: stream exhausted, no
errors. -/
def c9P2 : Parser := { rest := [], peek := token.EOF, err := [] }

/-- A parser state whose peek token (an identifier on line 1) mismatches an
expected Period. -/
def c9Mis : Parser := { rest := [c9ThreeTok], peek := c9XTok, err := [] }

/-- C9, witness: on the concrete stream x := 3 . the driver finishes with no
recorded error and Parse returns the Program node; and a concrete mismatched
expect advances one token and records one error with the post-advance line. -/
theorem C9_parse_error_discipline_witness :
    parseDriver 19 c9Toks = some (c9Block, c9P2) ∧
    Parse 19 c9Toks = some (some (ast.NewProgramNode c9Block), none) ∧
    (expect token.Period c9Mis = (false, appendError (move c9Mis)) ∧
     (expect token.Period c9Mis).2.err = c9Mis.err ++ [(move c9Mis).peek.Ln] ∧
     (expect token.Period c9Mis).2.rest = c9Mis.rest.tail ∧
     (expect token.Period c9Mis).2.peek = (move c9Mis).peek) :=
  have h : parseDriver 19 c9Toks = some (c9Block, c9P2) := by
    simp [parseDriver, New, c9Toks, c9Block, c9P2, parseBlock, parseConst, parseVar,
      parseProcedure, parseStatement, parseExpression, parseTerm, parseFactor,
      exprLoop, termLoop, constLoop, varLoop, procLoop, beginLoop, parseCondition,
      condTail, accept, expect, move, appendError, getTerminalNodeFromLookahead,
      compareLookahead, ast.NewTerminalNode, ast.NewAssignmentNode, ast.NewBlockNode,
      ast.NewConstNode, ast.NewVarNode, ast.NewProcedureParentNode, ast.NewNode,
      ast.Node.appendNode, c9XTok, c9AsgTok, c9ThreeTok, c9PeriodTok, token.EOF,
      token.Identifier, token.Integer, token.Assignment, token.Period, token.Const,
      token.Var, token.Procedure, token.Call, token.Begin, token.If, token.While,
      token.Exclamation, token.Minus, token.Plus, token.Times, token.Divide,
      token.LeftParen, ast.Block, ast.Const, ast.Var, ast.ProcedureParent,
      ast.Assignment, ast.Terminal]
  ⟨h, (C9_parse_error_discipline 19 c9Toks c9Block c9P2 h).1 rfl,
    (C9_parse_error_discipline 19 c9Toks c9Block c9P2 h).2.2 token.Period c9Mis
      (by decide)⟩

end parser
